import Mathlib

/-!
# Verification of the mlog-emulator core against its specification

This file shallowly embeds the Rust sources of the mlog-emulator repository
(`src/emulator/src/{value,variable,building,instruction,vm,interface}.rs`,
with `variable.rs` taken from `src/src/variable.rs`, the copy present in the
sources) and settles the frozen claims about the natural-language spec.

Modelling conventions:

* `f64` values are modelled as exact rationals (`Frac`).  All computations the
  claims depend on (program counters, small integer literals, the `as_int`
  epsilon test, UTF-16 code units) stay in regimes where IEEE-754 double
  arithmetic is exact, so the rational model agrees with the Rust code there.
  Transcendental operations (`sin`, `ln`, `powf`, ...), the four builtin
  float constants (`@pi`, `@e`, `@degToRad`, `@radToDeg`) and the random
  sampler are modelled as parameters of an abstract `MathOps` structure: the
  theorems hold for every instantiation, hence for the actual IEEE values.
  Not modelled (and not relied upon by any claim): IEEE rounding of
  `+ - * / %`, infinities and NaN (`f64::from_str` of `inf`/`NaN` tokens is
  treated as a parse failure, making such tokens variable references).
* Rust panics (`unwrap`, out-of-range indexing, `panic!`) are modelled by the
  `Res.crash` outcome; `Err` results by `Res.err`.
* `Rc<LazyUtf16String>` cells are shared and interiorly mutable (the memoised
  UTF-16 view), so string values are modelled as indices into a heap
  (`strs : List StrCell`) carried in the VM state, exactly mirroring the fact
  that every `Value::Str` in a run aliases one of the parse-time literal
  cells.  Likewise `Value::Building` holds a reference into the device list
  (or the `@this` processor).
* Strings are modelled as `List Char` (`Txt`), with byte indices of the Rust
  code replaced by character positions (all indices used by the code fall on
  character boundaries, so the two views coincide).
-/

abbrev Txt := List Char

/-! ## Exact rationals with kernel-computable arithmetic

Mathlib's `Frac` operations are `@[irreducible]`, so they do not evaluate under
`decide`; the VM model therefore uses its own normalised fraction type.  All
constructors keep fractions in lowest terms with a positive denominator, so
structural equality coincides with numeric equality (IEEE `==` on the
modelled doubles). -/

structure Frac where
  num : Int
  den : Nat
deriving DecidableEq, Repr

/-- Normalise `n / d` (`d = 0` cannot arise from the embedded code). -/
def Frac.norm (n : Int) (d : Nat) : Frac :=
  if d = 0 then ⟨0, 1⟩
  else
    let g := n.natAbs.gcd d
    ⟨n / (g : Int), d / g⟩

def Frac.ofInt (n : Int) : Frac := ⟨n, 1⟩

def Frac.ofNat (n : Nat) : Frac := ⟨(n : Int), 1⟩

instance (n : Nat) : OfNat Frac n := ⟨⟨(n : Int), 1⟩⟩

def Frac.add (a b : Frac) : Frac :=
  Frac.norm (a.num * b.den + b.num * a.den) (a.den * b.den)

def Frac.sub (a b : Frac) : Frac :=
  Frac.norm (a.num * b.den - b.num * a.den) (a.den * b.den)

def Frac.mul (a b : Frac) : Frac :=
  Frac.norm (a.num * b.num) (a.den * b.den)

/-- Normalise a quotient of integers (flipping the sign into the numerator). -/
def Frac.normSigned (n d : Int) : Frac :=
  if d < 0 then Frac.norm (-n) (-d).toNat else Frac.norm n d.toNat

/-- Division; `b = 0` (IEEE ±inf/NaN) is not modelled and yields `0`,
documented as out of scope of every claim. -/
def Frac.div (a b : Frac) : Frac :=
  if b.num = 0 then ⟨0, 1⟩
  else Frac.normSigned (a.num * b.den) ((a.den : Int) * b.num)

def Frac.neg (a : Frac) : Frac := ⟨-a.num, a.den⟩

/-- `f64::abs`. -/
def Frac.fabs (a : Frac) : Frac := ⟨(a.num.natAbs : Int), a.den⟩

instance : LT Frac := ⟨fun a b => a.num * (b.den : Int) < b.num * (a.den : Int)⟩

instance : LE Frac := ⟨fun a b => a.num * (b.den : Int) ≤ b.num * (a.den : Int)⟩

instance (a b : Frac) : Decidable (a < b) :=
  inferInstanceAs (Decidable (a.num * (b.den : Int) < b.num * (a.den : Int)))

instance (a b : Frac) : Decidable (a ≤ b) :=
  inferInstanceAs (Decidable (a.num * (b.den : Int) ≤ b.num * (a.den : Int)))

/-- `f64::floor` as an integer. -/
def Frac.floor (a : Frac) : Int := Int.fdiv a.num a.den

/-- `f64::ceil` as an integer. -/
def Frac.ceil (a : Frac) : Int := -(Int.fdiv (-a.num) a.den)

/-- Truncation toward zero (the rounding of Rust's `as` casts). -/
def Frac.trunc (a : Frac) : Int :=
  if 0 ≤ a.num then a.num / (a.den : Int) else -((-a.num) / (a.den : Int))

/-- `f64::EPSILON` = 2⁻⁵². -/
def f64Epsilon : Frac := ⟨1, 4503599627370496⟩

/-- `f64::round`: round half away from zero. -/
def rustRound (q : Frac) : Int :=
  if 0 ≤ q.num then (q.add ⟨1, 2⟩).floor else (q.sub ⟨1, 2⟩).ceil

/-- `f64 as i64`: truncate toward zero, saturating at the i64 range. -/
def f64AsI64 (q : Frac) : Int :=
  max (-(2 ^ 63)) (min (2 ^ 63 - 1) q.trunc)

/-- Two's-complement wrap of an integer into the i64 range. -/
def wrapI64 (n : Int) : Int :=
  ((n + 2 ^ 63) % 2 ^ 64) - 2 ^ 63

/-- `i64 as u16`: keep the low 16 bits. -/
def i64AsU16 (n : Int) : Nat :=
  (n % 65536).toNat

/-- Rust's `%` on f64 (remainder with the dividend's sign); the `b = 0` case
(NaN in IEEE) is unused by the claims. -/
def f64Rem (a b : Frac) : Frac :=
  if b.num = 0 then ⟨0, 1⟩ else a.sub (b.mul (Frac.ofInt ((a.div b).trunc)))

/-- `f64::floor`. -/
def f64Floor (q : Frac) : Frac := Frac.ofInt q.floor

/-- `f64::ceil`. -/
def f64Ceil (q : Frac) : Frac := Frac.ofInt q.ceil

/-- `f64::max` (NaN propagation not modelled). -/
def f64Max (a b : Frac) : Frac := if a < b then b else a

/-- `f64::min`. -/
def f64Min (a b : Frac) : Frac := if b < a then b else a

/-- Abstract model of the operations whose IEEE-754 results are not exactly
representable as rationals (transcendentals, `powf`, `sqrt`) plus the builtin
float constants and the random sampler (`rand` consumes a counter carried in
the VM state). -/
structure MathOps where
  pi : Frac
  e : Frac
  degToRad : Frac
  radToDeg : Frac
  powf : Frac → Frac → Frac
  ln : Frac → Frac
  log10 : Frac → Frac
  sqrt : Frac → Frac
  sin : Frac → Frac
  cos : Frac → Frac
  tan : Frac → Frac
  asin : Frac → Frac
  acos : Frac → Frac
  atan : Frac → Frac
  atan2 : Frac → Frac → Frac
  toDegrees : Frac → Frac
  toRadians : Frac → Frac
  rand : Nat → Frac

/-- A dummy instantiation used only to evaluate witnesses; the theorems are
universally quantified over `MathOps`. -/
def dummyOps : MathOps where
  pi := 0
  e := 0
  degToRad := 0
  radToDeg := 0
  powf := fun _ _ => 0
  ln := fun _ => 0
  log10 := fun _ => 0
  sqrt := fun _ => 0
  sin := fun _ => 0
  cos := fun _ => 0
  tan := fun _ => 0
  asin := fun _ => 0
  acos := fun _ => 0
  atan := fun _ => 0
  atan2 := fun _ _ => 0
  toDegrees := fun _ => 0
  toRadians := fun _ => 0
  rand := fun _ => 0

/-- UTF-16 encoding of one Unicode scalar value (`char::encode_utf16`). -/
def encodeUtf16Char (c : Char) : List Nat :=
  if c.val.toNat < 0x10000 then [c.val.toNat]
  else
    let v := c.val.toNat - 0x10000
    [0xD800 + v / 0x400, 0xDC00 + v % 0x400]

/-- UTF-16 code-unit sequence of a string (`str::encode_utf16`). -/
def encodeUtf16 (t : Txt) : List Nat :=
  t.flatMap encodeUtf16Char

/-- `LazyUtf16String`: the shared text together with the memoised UTF-16 view
(`OnceCell<Vec<u16>>`; `none` = not yet materialised). -/
structure StrCell where
  text : Txt
  utf16 : Option (List Nat)
deriving DecidableEq, Repr

/-- `LazyUtf16String::as_utf_16` (the value it returns). -/
def StrCell.asUtf16 (c : StrCell) : List Nat :=
  c.utf16.getD (encodeUtf16 c.text)

/-- The cell after `as_utf_16` has memoised the view (`OnceCell::get_or_init`). -/
def StrCell.materialise (c : StrCell) : StrCell :=
  { c with utf16 := some c.asUtf16 }

/-- Derived `PartialEq` of `LazyUtf16String`: it compares BOTH fields, the
text and the `OnceCell` (whose `PartialEq` compares `self.get()`). -/
def StrCell.beq (a b : StrCell) : Bool :=
  a.text = b.text ∧ a.utf16 = b.utf16

/-- `Property::PROPERTIES`. -/
def propertyVocabulary : List Txt := ["memoryCapacity".toList, "size".toList]

/-- Reference to a peripheral (`Rc<dyn Building>`): either one of the linked
devices (by position in the VM's device list) or the `@this` processor. -/
inductive BRef where
  | linked (i : Nat)
  | this
deriving DecidableEq, Repr

/-- `Value` — the tagged union.  `str` points into the string heap,
`building` into the device list. -/
inductive Value where
  | null
  | num (q : Frac)
  | str (sid : Nat)
  | building (b : BRef)
  | prop (p : Txt)
deriving DecidableEq, Repr

/-- `VmError` from `vm.rs`. -/
inductive VmError where
  | invalidCast (value : Txt) (tfrom tto : Txt)
  | invalidBuildingType (action : Txt) (name : Txt)
  | variableNotFound (name : Txt)
  | constantMutation (name : Txt)
  | emptyCode
  | codeTooLong (len limit : Nat)
  | invalidCharacter (ch : Nat)
  | negativeIndex (idx : Int) (device : Txt)
  | indexTooHigh (idx limit : Nat) (device : Txt)
  | pcResError (e : VmError)
  | invalidFormat (msg : Txt)
  | noProperty (value : Txt) (type prop : Txt)
  | invalidOperation (op : Txt)
  | divisionByZero
deriving DecidableEq, Repr

/-- `PosVmError(err, pos)`. -/
structure PosVmError where
  err : VmError
  pos : Option Nat
deriving DecidableEq, Repr

/-- Outcome of a fallible computation: `crash` models a Rust panic,
`err` a returned `Err`, `ok` a returned `Ok`. -/
inductive Res (ε α : Type) where
  | crash
  | err (e : ε)
  | ok (a : α)
deriving DecidableEq, Repr

def Res.bind {ε α β : Type} (x : Res ε α) (f : α → Res ε β) : Res ε β :=
  match x with
  | .crash => .crash
  | .err e => .err e
  | .ok a => f a

instance {ε : Type} : Monad (Res ε) where
  pure := Res.ok
  bind := Res.bind

/-- Lift an `Option` whose `none` models a panic. -/
def Res.ofPanic {ε α : Type} (x : Option α) : Res ε α :=
  match x with
  | none => .crash
  | some a => .ok a

/-- Forget the failure modes (used to recompute which instruction ran). -/
def Res.toOption {ε α : Type} : Res ε α → Option α
  | .ok a => some a
  | .crash => none
  | .err _ => none

abbrev VmRes (α : Type) := Res VmError α

/-! ## Integer display (`Display for f64` restricted to integral values) -/

/-- Decimal rendering of an integer. -/
def intDisplay (n : Int) : Txt :=
  if n < 0 then '-' :: Nat.toDigits 10 n.natAbs else Nat.toDigits 10 n.natAbs

/-- `Display` of a `Num`.  Faithful for integral values (Rust prints e.g.
`5`); the non-integral branch stands in for Rust's shortest-roundtrip float
formatting, which no claim depends on. -/
def numDisplay (q : Frac) : Txt :=
  if q.den = 1 then intDisplay q.num
  else intDisplay q.num ++ '/' :: Nat.toDigits 10 q.den

/-! ## Variables (`variable.rs`) -/

/-- `Variable { name, value: UnsafeCell<Value>, constant }`. -/
structure Variable where
  name : Txt
  value : Value
  constant : Bool
deriving DecidableEq, Repr

/-- `Variables { variables: Vec<Variable>, by_name: HashMap<String, usize> }`;
the hash map is modelled as an association list. -/
structure Variables where
  slots : List Variable
  byName : List (Txt × Nat)
deriving DecidableEq, Repr

/-- `by_name.get(name)`. -/
def Variables.lookupName (vars : Variables) (nm : Txt) : Option Nat :=
  (vars.byName.find? (fun p => p.1 = nm)).map (·.2)

/-- `Variables::get_handle`. -/
def Variables.getHandle (vars : Variables) (nm : Txt) : Option Nat :=
  vars.lookupName nm

/-- `Variables::handle`: return the existing handle or intern a fresh
mutable `Null` slot. -/
def Variables.handle (vars : Variables) (nm : Txt) : Nat × Variables :=
  match vars.lookupName nm with
  | some idx => (idx, vars)
  | none =>
    let idx := vars.slots.length
    (idx, { slots := vars.slots ++ [⟨nm, .null, false⟩],
            byName := vars.byName ++ [(nm, idx)] })

/-- `Variables::insert`: used for builtins and devices only; `none` models
the `panic!` on a duplicate name. -/
def Variables.insertVar (vars : Variables) (nm : Txt) (v : Variable) :
    Option Variables :=
  match vars.lookupName nm with
  | some _ => none
  | none =>
    some { slots := vars.slots ++ [v],
           byName := vars.byName ++ [(nm, vars.slots.length)] }

/-- `VarHandle::get` / slot lookup (`None` would be an out-of-range panic). -/
def Variables.slot (vars : Variables) (h : Nat) : Option Variable :=
  vars.slots[h]?

/-- `VarHandle::val` (panics on an invalid handle). -/
def Variables.getVal (vars : Variables) (h : Nat) : VmRes Value :=
  Res.ofPanic ((vars.slot h).map (·.value))

/-- `VarHandle::set` → `Variable::set_val`: fails with `ConstantMutation`
on a constant slot (leaving the store untouched), otherwise replaces the
slot's value.  An invalid handle is an indexing panic. -/
def Variables.setVal (vars : Variables) (h : Nat) (v : Value) : VmRes Variables :=
  match vars.slots[h]? with
  | none => .crash
  | some s =>
    if s.constant then .err (.constantMutation s.name)
    else .ok { vars with slots := vars.slots.set h { s with value := v } }

/-- `VarHandle::force_set` → `Variable::force_set_val`: the privileged setter
that bypasses the constant check (used once, to install `@this`). -/
def Variables.forceSetVal (vars : Variables) (h : Nat) (v : Value) : Variables :=
  match vars.slots[h]? with
  | none => vars
  | some s => { vars with slots := vars.slots.set h { s with value := v } }

/-! ## Buildings (`building.rs`) -/

/-- Concrete device state: `MessageBuilding { text }`,
`MemoryBuilding { data }`, or the `@this` `ProcessorBuilding` (whose only
state is the back-reference to the store, carried by the VM state itself). -/
inductive BKind where
  | message (text : Txt)
  | memory (data : List Frac)
  | processor
deriving DecidableEq, Repr

structure BuildingState where
  name : Txt
  kind : BKind
deriving DecidableEq, Repr

/-- Name of a building reference (`Building::name`).  A dangling `linked`
index cannot arise in a constructed VM. -/
def brefName (buildings : List BuildingState) : BRef → Txt
  | .linked i => ((buildings[i]?).map (·.name)).getD []
  | .this => "@this".toList

/-! ## Value methods (`value.rs`) -/

/-- `Display for Value`.  String and building variants read the heaps. -/
def Value.display (strs : List StrCell) (buildings : List BuildingState) :
    Value → Txt
  | .null => "null".toList
  | .num q => numDisplay q
  | .str sid => (((strs[sid]?).map (·.text))).getD []
  | .building b => brefName buildings b
  | .prop p => '@' :: p

/-- `Value::type_name`. -/
def Value.typeName : Value → Txt
  | .null => "null".toList
  | .num _ => "num".toList
  | .str _ => "str".toList
  | .building _ => "Building".toList
  | .prop _ => "Property".toList

/-- `Value::_invalid_cast`. -/
def Value.invalidCastErr (strs : List StrCell) (buildings : List BuildingState)
    (v : Value) (tto : Txt) : VmError :=
  .invalidCast (v.display strs buildings) v.typeName tto

/-- `Value::as_num`: only `Num`. -/
def Value.asNum (strs : List StrCell) (buildings : List BuildingState) :
    Value → VmRes Frac
  | .num q => .ok q
  | v => .err (v.invalidCastErr strs buildings "num".toList)

/-- `Value::as_int`: `as_num`, then accept iff the value is within machine
epsilon of its nearest integer; the returned integer is the Rust `as i64`
cast (truncation toward zero, saturating). -/
def Value.asInt (strs : List StrCell) (buildings : List BuildingState)
    (v : Value) : VmRes Int :=
  match v.asNum strs buildings with
  | .crash => .crash
  | .err e => .err e
  | .ok q =>
    if ((Frac.ofInt (rustRound q)).sub q).fabs < f64Epsilon then .ok (f64AsI64 q)
    else .err (v.invalidCastErr strs buildings "int".toList)

/-- `Value::as_index`. -/
def Value.asIndex (strs : List StrCell) (buildings : List BuildingState)
    (v : Value) (len : Nat) (device : Txt) : VmRes Nat :=
  match v.asInt strs buildings with
  | .crash => .crash
  | .err e => .err e
  | .ok n =>
    if n < 0 then .err (.negativeIndex n device)
    else if len ≤ n.toNat then .err (.indexTooHigh n.toNat len device)
    else .ok n.toNat

/-- `Value::as_str`: the shared string cell (its heap index). -/
def Value.asStr (strs : List StrCell) (buildings : List BuildingState) :
    Value → VmRes Nat
  | .str sid => .ok sid
  | v => .err (v.invalidCastErr strs buildings "str".toList)

/-- `Value::as_building`. -/
def Value.asBuilding (strs : List StrCell) (buildings : List BuildingState) :
    Value → VmRes BRef
  | .building b => .ok b
  | v => .err (v.invalidCastErr strs buildings "Building".toList)

/-- `Value::as_property`. -/
def Value.asProperty (strs : List StrCell) (buildings : List BuildingState) :
    Value → VmRes Txt
  | .prop p => .ok p
  | v => .err (v.invalidCastErr strs buildings "Property".toList)

/-- Derived `PartialEq for Value` (as used by `op equal` and `jump`):
`Num` compares numerically, `Str` compares the two `LazyUtf16String` cells
FIELDWISE — underlying text AND the memoised `OnceCell` view —, buildings
compare by name, cross-variant compares unequal. -/
def Value.beqv (strs : List StrCell) (buildings : List BuildingState) :
    Value → Value → Bool
  | .null, .null => true
  | .num a, .num b => a = b
  | .str i, .str j =>
    match strs[i]?, strs[j]? with
    | some a, some b => a.beq b
    | _, _ => false
  | .building a, .building b => brefName buildings a = brefName buildings b
  | .prop a, .prop b => a = b
  | _, _ => false

/-! ## Lexer (`Instruction::split_line`) -/

/-- The loop of `split_line`, verbatim: `i` is the current position, `start`
the start of the current segment, `ns` the `next_start` flag, `qs` the
`quotes` flag; the first list argument is `line.drop i`.  Segments are the
slices `line[start..i]`; after the loop the slice `line[start..last_ch]` is
pushed when nonempty. -/
def splitLineAux (line : Txt) : Txt → Nat → Nat → Bool → Bool → List Txt
  | [], _, start, _, _ =>
    if start = line.length then [] else [line.drop start]
  | c :: rest, i, start, ns, qs =>
    if c = ' ' ∧ qs = false then
      ((line.drop start).take (i - start)) :: splitLineAux line rest (i + 1) start true qs
    else
      let start' := if ns then i else start
      let qs' := if c = '"' then ! qs else qs
      splitLineAux line rest (i + 1) start' false qs'

/-- `Instruction::split_line`. -/
def splitLine (line : Txt) : List Txt :=
  splitLineAux line line 0 0 false false

/-- The unit tests of `split_line` from `instruction.rs`. -/
example : splitLine "a b c".toList = ["a".toList, "b".toList, "c".toList] := by decide
example :
    splitLine "a \"b c d\" ef g".toList
      = ["a".toList, "\"b c d\"".toList, "ef".toList, "g".toList] := by decide
example : splitLine "va".toList = ["va".toList] := by decide
example : splitLine "".toList = [] := by decide

/-! ## Number literals (`f64::from_str`) -/

/-- Numeric value of a digit string. -/
def digitsVal (ds : Txt) : Nat :=
  ds.foldl (fun a c => 10 * a + (c.toNat - '0'.toNat)) 0

/-- Model of `f64::from_str`, producing the exact rational value of the
decimal literal: optional sign, integer digits, optional fraction, optional
decimal exponent.  (The `inf`/`NaN` spellings accepted by Rust are not
representable in `Frac` and are treated as parse failures; IEEE rounding of the
decimal to the nearest double is not modelled.) -/
def f64FromStr (t : Txt) : Option Frac :=
  let (sign, t1) : Bool × Txt :=
    match t with
    | '+' :: r => (true, r)
    | '-' :: r => (false, r)
    | _ => (true, t)
  let (ip, r1) := t1.span Char.isDigit
  let (fp, r2) : Txt × Txt :=
    match r1 with
    | '.' :: rr => rr.span Char.isDigit
    | _ => ([], r1)
  if ip = [] ∧ fp = [] then none
  else
    let mant : Frac :=
      (Frac.ofNat (digitsVal ip)).add
        ((Frac.ofNat (digitsVal fp)).div ⟨(10 : Int) ^ fp.length, 1⟩)
    let signed : Frac → Frac := fun m => if sign then m else m.neg
    match r2 with
    | [] => some (signed mant)
    | e :: rr =>
      if e = 'e' ∨ e = 'E' then
        let (epos, rr1) : Bool × Txt :=
          match rr with
          | '+' :: x => (true, x)
          | '-' :: x => (false, x)
          | _ => (true, rr)
        let (ed, rr2) := rr1.span Char.isDigit
        if ed = [] ∨ rr2 ≠ [] then none
        else
          let factor : Frac :=
            if epos then ⟨(10 : Int) ^ digitsVal ed, 1⟩
            else ⟨1, 10 ^ digitsVal ed⟩
          some (signed (mant.mul factor))
      else none

example : f64FromStr "42".toList = some 42 := by decide
example : f64FromStr "-2.5".toList = some ⟨-5, 2⟩ := by decide
example : f64FromStr "1e3".toList = some 1000 := by decide
example : f64FromStr "cell".toList = none := by decide
example : f64FromStr "@counter".toList = none := by decide

/-! ## Instructions (`instruction.rs`) -/

/-- `ValueArg`: an immediate value or a pre-resolved variable handle. -/
inductive ValueArg where
  | value (v : Value)
  | varh (h : Nat)
deriving DecidableEq, Repr

/-- Parse-time state: the variable store plus the heap of string-literal
cells allocated so far. -/
structure PState where
  vars : Variables
  strs : List StrCell
deriving Repr

/-- `ValueArg::parse`: a `"…"` token is a string literal (a fresh shared
cell, quotes stripped; the one-character token `"` makes the Rust slice
`string[1..0]` panic), a token parsing as a double is a numeric literal,
anything else is interned as a variable. -/
def ValueArg.parse (tok : Txt) (ps : PState) : Res VmError (ValueArg × PState) :=
  if tok.head? = some '"' ∧ tok.getLast? = some '"' then
    if tok.length = 1 then .crash
    else
      .ok (.value (.str ps.strs.length),
           { ps with strs := ps.strs ++ [⟨(tok.drop 1).dropLast, none⟩] })
  else
    match f64FromStr tok with
    | some q => .ok (.value (.num q), ps)
    | none =>
      let (h, vars') := ps.vars.handle tok
      .ok (.varh h, { ps with vars := vars' })

/-- `Operator` (strum `EnumString`, camelCase). -/
inductive Operator where
  | add | sub | mul | div | idiv | mod | pow
  | opNot | land
  | lessThan | lessThanEq | greaterThan | greaterThanEq
  | strictEqual | equal | notEqual
  | shl | shr | bor | band | bxor | flip
  | opMax | opMin | opAbs | log | log10 | floor | ceil | sqrt
  | angle | length | sin | cos | tan | asin | acos | atan | rand
deriving DecidableEq, Repr

/-- `Operator::from_str` (the camelCase serialisation). -/
def Operator.fromStr (t : Txt) : Option Operator :=
  if t = "add".toList then some .add
  else if t = "sub".toList then some .sub
  else if t = "mul".toList then some .mul
  else if t = "div".toList then some .div
  else if t = "idiv".toList then some .idiv
  else if t = "mod".toList then some .mod
  else if t = "pow".toList then some .pow
  else if t = "not".toList then some .opNot
  else if t = "land".toList then some .land
  else if t = "lessThan".toList then some .lessThan
  else if t = "lessThanEq".toList then some .lessThanEq
  else if t = "greaterThan".toList then some .greaterThan
  else if t = "greaterThanEq".toList then some .greaterThanEq
  else if t = "strictEqual".toList then some .strictEqual
  else if t = "equal".toList then some .equal
  else if t = "notEqual".toList then some .notEqual
  else if t = "shl".toList then some .shl
  else if t = "shr".toList then some .shr
  else if t = "or".toList then some .bor
  else if t = "and".toList then some .band
  else if t = "xor".toList then some .bxor
  else if t = "flip".toList then some .flip
  else if t = "max".toList then some .opMax
  else if t = "min".toList then some .opMin
  else if t = "abs".toList then some .opAbs
  else if t = "log".toList then some .log
  else if t = "log10".toList then some .log10
  else if t = "floor".toList then some .floor
  else if t = "ceil".toList then some .ceil
  else if t = "sqrt".toList then some .sqrt
  else if t = "angle".toList then some .angle
  else if t = "length".toList then some .length
  else if t = "sin".toList then some .sin
  else if t = "cos".toList then some .cos
  else if t = "tan".toList then some .tan
  else if t = "asin".toList then some .asin
  else if t = "acos".toList then some .acos
  else if t = "atan".toList then some .atan
  else if t = "rand".toList then some .rand
  else none

/-- `Instruction`. -/
inductive Instruction where
  | read (dst : Nat) (src idx : ValueArg)
  | write (src dst idx : ValueArg)
  | print (v : ValueArg)
  | printChar (v : ValueArg)
  | format (v : ValueArg)
  | printFlush (v : ValueArg)
  | getLink (dst : Nat) (idx : ValueArg)
  | sensor (dst : Nat) (src prop : ValueArg)
  | set (dst : Nat) (src : ValueArg)
  | op (o : Operator) (dst : Nat) (a b : ValueArg)
  | wait (t : ValueArg)
  | stop
  | ende
  | jump (dst : ValueArg) (cmp : Txt) (a b : ValueArg)
deriving DecidableEq, Repr

/-- `arg!(out, ...)`: intern the destination (missing argument = index panic). -/
def outArg (args : List Txt) (i : Nat) (ps : PState) : Res VmError (Nat × PState) :=
  match args[i]? with
  | none => .crash
  | some t =>
    let (h, vars') := ps.vars.handle t
    .ok (h, { ps with vars := vars' })

/-- `arg!(in, ...)`. -/
def inArg (args : List Txt) (i : Nat) (ps : PState) : Res VmError (ValueArg × PState) :=
  match args[i]? with
  | none => .crash
  | some t => ValueArg.parse t ps

/-- `arg!(imm, ...)`. -/
def immArg (args : List Txt) (i : Nat) : Res VmError Txt :=
  match args[i]? with
  | none => .crash
  | some t => .ok t

/-- `arg!(op, ...)` (`Operator::from_str(...).unwrap()`). -/
def opArg (args : List Txt) (i : Nat) : Res VmError Operator :=
  match args[i]? with
  | none => .crash
  | some t => Res.ofPanic (Operator.fromStr t)

/-- The opcode selected by the first token (the arms of the Rust `match`);
`none` is the `panic!("Unsupported instruction")` arm. -/
inductive OpCode where
  | read | write | print | printchar | format | printflush | getlink
  | sensor | set | op | wait | stop | ende | jump
deriving DecidableEq, Repr

def opcodeOf (t : Txt) : Option OpCode :=
  if t = "read".toList then some .read
  else if t = "write".toList then some .write
  else if t = "print".toList then some .print
  else if t = "printchar".toList then some .printchar
  else if t = "format".toList then some .format
  else if t = "printflush".toList then some .printflush
  else if t = "getlink".toList then some .getlink
  else if t = "sensor".toList then some .sensor
  else if t = "set".toList then some .set
  else if t = "op".toList then some .op
  else if t = "wait".toList then some .wait
  else if t = "stop".toList then some .stop
  else if t = "end".toList then some .ende
  else if t = "jump".toList then some .jump
  else none

/-- The argument pattern of each opcode (the `ins!` expansions). -/
def parseArgs (c : OpCode) (args : List Txt) (ps : PState) :
    Res VmError (Instruction × PState) :=
  match c with
  | .read => do
    let (d, ps) ← outArg args 1 ps
    let (s, ps) ← inArg args 2 ps
    let (ix, ps) ← inArg args 3 ps
    return (.read d s ix, ps)
  | .write => do
    let (s, ps) ← inArg args 1 ps
    let (d, ps) ← inArg args 2 ps
    let (ix, ps) ← inArg args 3 ps
    return (.write s d ix, ps)
  | .print => do
    let (v, ps) ← inArg args 1 ps
    return (.print v, ps)
  | .printchar => do
    let (v, ps) ← inArg args 1 ps
    return (.printChar v, ps)
  | .format => do
    let (v, ps) ← inArg args 1 ps
    return (.format v, ps)
  | .printflush => do
    let (v, ps) ← inArg args 1 ps
    return (.printFlush v, ps)
  | .getlink => do
    let (d, ps) ← outArg args 1 ps
    let (ix, ps) ← inArg args 2 ps
    return (.getLink d ix, ps)
  | .sensor => do
    let (d, ps) ← outArg args 1 ps
    let (s, ps) ← inArg args 2 ps
    let (p, ps) ← inArg args 3 ps
    return (.sensor d s p, ps)
  | .set => do
    let (d, ps) ← outArg args 1 ps
    let (s, ps) ← inArg args 2 ps
    return (.set d s, ps)
  | .op => do
    let o ← opArg args 1
    let (d, ps) ← outArg args 2 ps
    let (a, ps) ← inArg args 3 ps
    let (b, ps) ← inArg args 4 ps
    return (.op o d a b, ps)
  | .wait => do
    let (t, ps) ← inArg args 1 ps
    return (.wait t, ps)
  | .stop => .ok (.stop, ps)
  | .ende => .ok (.ende, ps)
  | .jump => do
    let (d, ps) ← inArg args 1 ps
    let c ← immArg args 2
    let (a, ps) ← inArg args 3 ps
    let (b, ps) ← inArg args 4 ps
    return (.jump d c a b, ps)

/-- `Instruction::parse`: `none` for a line that lexes to zero tokens; an
unknown opcode is a `panic!`. -/
def Instruction.parse (line : Txt) (ps : PState) :
    Res VmError (Option Instruction × PState) :=
  match (splitLine line).head? with
  | none => .ok (none, ps)
  | some op0 =>
    match opcodeOf op0 with
    | none => .crash
    | some c =>
      match parseArgs c (splitLine line) ps with
      | .crash => .crash
      | .err e => .err e
      | .ok (i, ps') => .ok (some i, ps')

/-! ## VM state -/

/-- The mutable state of a run: the variable store, the heap of shared
string cells, the devices, the print buffer, plus the VM's fixed data
(`pc_handle`, parsed code) and the entropy counter consumed by `rand`. -/
structure VMState where
  vars : Variables
  strs : List StrCell
  buildings : List BuildingState
  buffer : Txt
  pcHandle : Nat
  code : List Instruction
  rng : Nat
deriving DecidableEq, Repr

/-- `ValueArg::eval`. -/
def evalArg (a : ValueArg) (vars : Variables) : VmRes Value :=
  match a with
  | .value v => .ok v
  | .varh h => vars.getVal h

/-! ## Building operations (`building.rs` dispatch) -/

/-- `ProcessorBuilding::read`. -/
def processorRead (σ : VMState) (idx : Value) : VmRes Value := do
  let sid ← idx.asStr σ.strs σ.buildings
  match σ.strs[sid]? with
  | none => .crash
  | some cell =>
    match σ.vars.getHandle cell.text with
    | none => .err (.variableNotFound cell.text)
    | some h => σ.vars.getVal h

/-- `ProcessorBuilding::write`. -/
def processorWrite (σ : VMState) (idx val : Value) : VmRes VMState := do
  let sid ← idx.asStr σ.strs σ.buildings
  match σ.strs[sid]? with
  | none => .crash
  | some cell =>
    match σ.vars.getHandle cell.text with
    | none => .err (.variableNotFound cell.text)
    | some h => do
      let vars' ← σ.vars.setVal h val
      return { σ with vars := vars' }

/-- `Building::read` dispatch: `MemoryBuilding::read`, `ProcessorBuilding::read`,
default `InvalidBuildingType` for message displays. -/
def buildingRead (σ : VMState) (r : BRef) (idx : Value) : VmRes Value :=
  match r with
  | .this => processorRead σ idx
  | .linked i =>
    match σ.buildings[i]? with
    | none => .crash
    | some b =>
      match b.kind with
      | .message _ => .err (.invalidBuildingType "read from".toList b.name)
      | .memory data => do
        let ix ← Value.asIndex σ.strs σ.buildings idx data.length "memory cell".toList
        match data[ix]? with
        | none => .crash
        | some q => return .num q
      | .processor => processorRead σ idx

/-- `Building::write` dispatch. -/
def buildingWrite (σ : VMState) (r : BRef) (idx val : Value) : VmRes VMState :=
  match r with
  | .this => processorWrite σ idx val
  | .linked i =>
    match σ.buildings[i]? with
    | none => .crash
    | some b =>
      match b.kind with
      | .message _ => .err (.invalidBuildingType "write into".toList b.name)
      | .memory data => do
        let ix ← Value.asIndex σ.strs σ.buildings idx data.length "memory cell".toList
        let q ← val.asNum σ.strs σ.buildings
        return { σ with buildings :=
          σ.buildings.set i { b with kind := .memory (data.set ix q) } }
      | .processor => processorWrite σ idx val

/-- `Building::sense`: NO concrete building overrides it, so every device —
including memory cells — answers with the default `InvalidBuildingType`. -/
def buildingSense (σ : VMState) (r : BRef) (_p : Txt) : VmRes Value :=
  .err (.invalidBuildingType "sense from".toList (brefName σ.buildings r))

/-- `Building::print_flush` dispatch: `MessageBuilding` replaces its text,
everything else answers the default `InvalidBuildingType`. -/
def buildingPrintFlush (σ : VMState) (r : BRef) (contents : Txt) : VmRes VMState :=
  match r with
  | .this => .err (.invalidBuildingType "print flush into".toList "@this".toList)
  | .linked i =>
    match σ.buildings[i]? with
    | none => .crash
    | some b =>
      match b.kind with
      | .message _ =>
        .ok { σ with buildings := σ.buildings.set i { b with kind := .message contents } }
      | _ => .err (.invalidBuildingType "print flush into".toList b.name)

/-- `Value::sense`: a string senses `size` (materialising its UTF-16 view),
a building delegates, everything else reads `Null`. -/
def valueSense (σ : VMState) (v : Value) (p : Txt) : VmRes (Value × VMState) :=
  match v with
  | .str sid =>
    if p = "size".toList then
      match σ.strs[sid]? with
      | none => .crash
      | some cell =>
        .ok (.num (Frac.ofNat cell.asUtf16.length),
             { σ with strs := σ.strs.set sid cell.materialise })
    else .ok (.null, σ)
  | .building b => do
    let x ← buildingSense σ b p
    return (x, σ)
  | _ => .ok (.null, σ)

/-! ## Arithmetic operators (`instruction.rs`, the `op` arms) -/

/-- Rust `i64` division (truncation toward zero; callers guard `b ≠ 0`). -/
def i64Tdiv (a b : Int) : Int :=
  if (decide (a < 0)) = (decide (b < 0)) then ((a.natAbs / b.natAbs : Nat) : Int)
  else -((a.natAbs / b.natAbs : Nat) : Int)

/-- Two's-complement bit pattern of an i64. -/
def i64Bits (a : Int) : Nat := (a % 2 ^ 64).toNat

/-- Back from a 64-bit pattern to the signed value. -/
def i64OfBits (n : Nat) : Int :=
  if n < 2 ^ 63 then (n : Int) else (n : Int) - 2 ^ 64

/-- Shift amount of an i64 `<<`/`>>` (release-mode masking to 0–63). -/
def i64Shamt (b : Int) : Nat := (b % 64).toNat

def i64Shl (a b : Int) : Int := wrapI64 (a * 2 ^ i64Shamt b)

def i64Shr (a b : Int) : Int := Int.fdiv a (2 ^ i64Shamt b)

def i64Or (a b : Int) : Int := i64OfBits (Nat.lor (i64Bits a) (i64Bits b))

def i64And (a b : Int) : Int := i64OfBits (Nat.land (i64Bits a) (i64Bits b))

def i64Xor (a b : Int) : Int := i64OfBits (Nat.xor (i64Bits a) (i64Bits b))

/-- `|x| < f64::EPSILON` (the `not` test). -/
def nearZero (q : Frac) : Bool := decide (q.fabs < f64Epsilon)

/-- `|x| > f64::EPSILON` (the `land` test). -/
def farZero (q : Frac) : Bool := decide (f64Epsilon < q.fabs)

/-- The `Instruction::Op` computation: evaluates the operands and produces
the stored value together with the updated entropy counter (`rand` is the
only operator drawing randomness). -/
def computeOp (ops : MathOps) (o : Operator) (a b : ValueArg) (σ : VMState) :
    VmRes (Value × Nat) := do
  match o with
  | .strictEqual | .equal => do
    let va ← evalArg a σ.vars
    let vb ← evalArg b σ.vars
    return (.num (if Value.beqv σ.strs σ.buildings va vb then 1 else 0), σ.rng)
  | .notEqual => do
    let va ← evalArg a σ.vars
    let vb ← evalArg b σ.vars
    return (.num (if Value.beqv σ.strs σ.buildings va vb then 0 else 1), σ.rng)
  | .opNot => do
    let x ← (← evalArg a σ.vars).asNum σ.strs σ.buildings
    return (.num (if nearZero x then 1 else 0), σ.rng)
  | .flip => do
    let x ← (← evalArg a σ.vars).asNum σ.strs σ.buildings
    return (.num (Frac.ofInt (-(f64AsI64 x) - 1)), σ.rng)
  | .opAbs => do
    let x ← (← evalArg a σ.vars).asNum σ.strs σ.buildings
    return (.num x.fabs, σ.rng)
  | .log => do
    let x ← (← evalArg a σ.vars).asNum σ.strs σ.buildings
    return (.num (ops.ln x), σ.rng)
  | .log10 => do
    let x ← (← evalArg a σ.vars).asNum σ.strs σ.buildings
    return (.num (ops.log10 x), σ.rng)
  | .floor => do
    let x ← (← evalArg a σ.vars).asNum σ.strs σ.buildings
    return (.num (f64Floor x), σ.rng)
  | .ceil => do
    let x ← (← evalArg a σ.vars).asNum σ.strs σ.buildings
    return (.num (f64Ceil x), σ.rng)
  | .sqrt => do
    let x ← (← evalArg a σ.vars).asNum σ.strs σ.buildings
    return (.num (ops.sqrt x), σ.rng)
  | .sin => do
    let x ← (← evalArg a σ.vars).asNum σ.strs σ.buildings
    return (.num (ops.sin (ops.toRadians x)), σ.rng)
  | .cos => do
    let x ← (← evalArg a σ.vars).asNum σ.strs σ.buildings
    return (.num (ops.cos (ops.toRadians x)), σ.rng)
  | .tan => do
    let x ← (← evalArg a σ.vars).asNum σ.strs σ.buildings
    return (.num (ops.tan (ops.toRadians x)), σ.rng)
  | .asin => do
    let x ← (← evalArg a σ.vars).asNum σ.strs σ.buildings
    return (.num (ops.toDegrees (ops.asin x)), σ.rng)
  | .acos => do
    let x ← (← evalArg a σ.vars).asNum σ.strs σ.buildings
    return (.num (ops.toDegrees (ops.acos x)), σ.rng)
  | .atan => do
    let x ← (← evalArg a σ.vars).asNum σ.strs σ.buildings
    return (.num (ops.toDegrees (ops.atan x)), σ.rng)
  | .rand => do
    let x ← (← evalArg a σ.vars).asNum σ.strs σ.buildings
    return (.num ((ops.rand σ.rng).mul x), σ.rng + 1)
  | _ => do
    let x ← (← evalArg a σ.vars).asNum σ.strs σ.buildings
    let y ← (← evalArg b σ.vars).asNum σ.strs σ.buildings
    match o with
    | .add => return (.num (x.add y), σ.rng)
    | .sub => return (.num (x.sub y), σ.rng)
    | .mul => return (.num (x.mul y), σ.rng)
    | .div => return (.num (x.div y), σ.rng)
    | .idiv =>
      let ai := f64AsI64 x
      let bi := f64AsI64 y
      if bi = 0 ∨ (ai = -(2 ^ 63) ∧ bi = -1) then .err .divisionByZero
      else return (.num (Frac.ofInt (i64Tdiv ai bi)), σ.rng)
    | .mod => return (.num (f64Rem x y), σ.rng)
    | .pow => return (.num (ops.powf x y), σ.rng)
    | .land => return (.num (if farZero x ∧ farZero y then 1 else 0), σ.rng)
    | .lessThan => return (.num (if x < y then 1 else 0), σ.rng)
    | .lessThanEq => return (.num (if x ≤ y then 1 else 0), σ.rng)
    | .greaterThan => return (.num (if y < x then 1 else 0), σ.rng)
    | .greaterThanEq => return (.num (if y ≤ x then 1 else 0), σ.rng)
    | .shl => return (.num (Frac.ofInt (i64Shl (f64AsI64 x) (f64AsI64 y))), σ.rng)
    | .shr => return (.num (Frac.ofInt (i64Shr (f64AsI64 x) (f64AsI64 y))), σ.rng)
    | .bor => return (.num (Frac.ofInt (i64Or (f64AsI64 x) (f64AsI64 y))), σ.rng)
    | .band => return (.num (Frac.ofInt (i64And (f64AsI64 x) (f64AsI64 y))), σ.rng)
    | .bxor => return (.num (Frac.ofInt (i64Xor (f64AsI64 x) (f64AsI64 y))), σ.rng)
    | .opMax => return (.num (f64Max x y), σ.rng)
    | .opMin => return (.num (f64Min x y), σ.rng)
    | .angle => return (.num (ops.toDegrees (ops.atan2 y x)), σ.rng)
    | .length => return (.num (ops.sqrt ((x.mul x).add (y.mul y))), σ.rng)
    | _ => .crash

/-- The condition block of the `Jump` arm: `always` short-circuits without
evaluating the operands; `equal`/`strictEqual`/`notEqual` use `Value`
equality; the four order comparators coerce to numbers; anything else is
`InvalidOperation`. -/
def jumpCond (cmp : Txt) (a b : ValueArg) (σ : VMState) : VmRes Bool :=
  if cmp = "always".toList then .ok true
  else do
    let va ← evalArg a σ.vars
    let vb ← evalArg b σ.vars
    if cmp = "equal".toList ∨ cmp = "strictEqual".toList then
      return Value.beqv σ.strs σ.buildings va vb
    else if cmp = "notEqual".toList then
      return ! Value.beqv σ.strs σ.buildings va vb
    else do
      let x ← va.asNum σ.strs σ.buildings
      let y ← vb.asNum σ.strs σ.buildings
      if cmp = "lessThan".toList then return decide (x < y)
      else if cmp = "lessThanEq".toList then return decide (x ≤ y)
      else if cmp = "greaterThan".toList then return decide (y < x)
      else if cmp = "greaterThanEq".toList then return decide (y ≤ x)
      else .err (.invalidOperation cmp)

/-! ## Instruction execution (`Instruction::execute`) -/

/-- One instruction.  Returns the updated state and the `halt` flag.
(`ende` models the `end` opcode; `end` is a Lean keyword.) -/
def execute (ops : MathOps) (ins : Instruction) (σ : VMState) :
    VmRes (VMState × Bool) :=
  match ins with
  | .read dst src idx => do
    let s ← evalArg src σ.vars
    let ix ← evalArg idx σ.vars
    match s with
    | .str sid =>
      match σ.strs[sid]? with
      | none => .crash
      | some cell => do
        let units := cell.asUtf16
        let σ1 := { σ with strs := σ.strs.set sid cell.materialise }
        let i ← Value.asIndex σ1.strs σ1.buildings ix units.length "string".toList
        match units[i]? with
        | none => .crash
        | some u => do
          let vars' ← σ1.vars.setVal dst (.num (Frac.ofNat u))
          return ({ σ1 with vars := vars' }, false)
    | _ => do
      let b ← s.asBuilding σ.strs σ.buildings
      let v ← buildingRead σ b ix
      let vars' ← σ.vars.setVal dst v
      return ({ σ with vars := vars' }, false)
  | .write src dst idx => do
    let d ← evalArg dst σ.vars
    let b ← d.asBuilding σ.strs σ.buildings
    let ix ← evalArg idx σ.vars
    let v ← evalArg src σ.vars
    let σ' ← buildingWrite σ b ix v
    return (σ', false)
  | .print v => do
    let x ← evalArg v σ.vars
    return ({ σ with buffer := σ.buffer ++ x.display σ.strs σ.buildings }, false)
  | .printChar v => do
    let x ← evalArg v σ.vars
    let k ← x.asInt σ.strs σ.buildings
    let u := i64AsU16 k
    if 0xD800 ≤ u ∧ u ≤ 0xDFFF then .err (.invalidCharacter u)
    else return ({ σ with buffer := σ.buffer ++ [Char.ofNat u] }, false)
  | .format v => do
    let x ← evalArg v σ.vars
    let _ := x.display σ.strs σ.buildings
    .err (.invalidFormat "not implemented".toList)
  | .printFlush v => do
    let x ← evalArg v σ.vars
    let b ← x.asBuilding σ.strs σ.buildings
    let contents := σ.buffer
    let σ' ← buildingPrintFlush { σ with buffer := [] } b contents
    return (σ', false)
  | .getLink dst idx => do
    let ix ← evalArg idx σ.vars
    let i ← Value.asIndex σ.strs σ.buildings ix σ.buildings.length "get link".toList
    let vars' ← σ.vars.setVal dst (.building (.linked i))
    return ({ σ with vars := vars' }, false)
  | .sensor dst src prop => do
    let s ← evalArg src σ.vars
    let p ← evalArg prop σ.vars
    let pn ← p.asProperty σ.strs σ.buildings
    let (v, σ1) ← valueSense σ s pn
    let vars' ← σ1.vars.setVal dst v
    return ({ σ1 with vars := vars' }, false)
  | .set dst src => do
    let v ← evalArg src σ.vars
    let vars' ← σ.vars.setVal dst v
    return ({ σ with vars := vars' }, false)
  | .op o dst a b => do
    let (v, rng') ← computeOp ops o a b σ
    let vars' ← σ.vars.setVal dst v
    return ({ σ with vars := vars', rng := rng' }, false)
  | .wait t => do
    let x ← evalArg t σ.vars
    let _ ← x.asNum σ.strs σ.buildings
    return (σ, false)
  | .stop => .ok (σ, true)
  | .ende => do
    let vars' ← σ.vars.setVal σ.pcHandle (.num 0)
    return ({ σ with vars := vars' }, false)
  | .jump dst cmp a b => do
    let c ← jumpCond cmp a b σ
    if c then do
      let v ← evalArg dst σ.vars
      let vars' ← σ.vars.setVal σ.pcHandle v
      return ({ σ with vars := vars' }, false)
    else return (σ, false)

/-! ## The VM cycle and driver (`vm.rs`) -/

abbrev PosRes (α : Type) := Res PosVmError α

/-- Result of one cycle: new state, `pc_wrap`, `halt`. -/
def cycle (ops : MathOps) (σ : VMState) : PosRes (VMState × Bool × Bool) :=
  match σ.vars.getVal σ.pcHandle with
  | .crash => .crash
  | .err _ => .crash
  | .ok pcv =>
    match pcv.asInt σ.strs σ.buildings with
    | .crash => .crash
    | .err e => .err ⟨.pcResError e, none⟩
    | .ok pc =>
      if pc < 0 then .err ⟨.negativeIndex pc "program counter".toList, none⟩
      else
        let (pcu, wrap) : Nat × Bool :=
          if (σ.code.length : Int) ≤ pc then (0, true) else (pc.toNat, false)
        match σ.vars.setVal σ.pcHandle (.num (Frac.ofNat (pcu + 1))) with
        | .crash => .crash
        | .err _ => .crash
        | .ok vars' =>
          match σ.code[pcu]? with
          | none => .crash
          | some ins =>
            match execute ops ins { σ with vars := vars' } with
            | .crash => .crash
            | .err e => .err ⟨e, some pcu⟩
            | .ok (σ'', halt) => .ok (σ'', wrap, halt)

inductive VmFinishReason where
  | pcWrap
  | halt
  | insLimit
deriving DecidableEq, Repr

/-- `VM::run` with an explicit cycle budget (`limit.unwrap_or(usize::MAX)`
is applied by the caller).  Returns the finish reason and the final state. -/
def runVM (ops : MathOps) : Nat → Bool → VMState → PosRes (VmFinishReason × VMState)
  | 0, _, σ => .ok (.insLimit, σ)
  | n + 1, endOnWrap, σ =>
    match cycle ops σ with
    | .crash => .crash
    | .err e => .err e
    | .ok (σ', wrap, halt) =>
      if halt then .ok (.halt, σ')
      else if wrap ∧ endOnWrap then .ok (.pcWrap, σ')
      else runVM ops n endOnWrap σ'

/-! ## VM construction (`VM::new`) -/

/-- The fixed builtin table (name, value, constant flag), in source order.
`@counter` and `@unit` are the only mutable entries. -/
def builtinTable (ops : MathOps) (nlinks : Nat) : List (Txt × Value × Bool) :=
  [("@counter".toList, .num 0, false),
   ("@this".toList, .null, true),
   ("@thisx".toList, .num 0, true),
   ("@thisy".toList, .num 0, true),
   ("@ipt".toList, .num 1000, true),
   ("@timescale".toList, .num 1, true),
   ("@links".toList, .num (Frac.ofNat nlinks), true),
   ("@unit".toList, .null, false),
   ("@time".toList, .num 0, true),
   ("@tick".toList, .num 0, true),
   ("@second".toList, .num 0, true),
   ("@minute".toList, .num 0, true),
   ("@waveNumber".toList, .num 0, true),
   ("@waveTime".toList, .num 0, true),
   ("@mapw".toList, .num 0, true),
   ("@maph".toList, .num 0, true),
   ("null".toList, .null, true),
   ("true".toList, .num 1, true),
   ("false".toList, .num 0, true),
   ("@pi".toList, .num ops.pi, true),
   ("@e".toList, .num ops.e, true),
   ("@degToRad".toList, .num ops.degToRad, true),
   ("@radToDeg".toList, .num ops.radToDeg, true),
   ("blockCount".toList, .num 0, true),
   ("unitCount".toList, .num 0, true),
   ("itemCount".toList, .num 0, true),
   ("liquidCount".toList, .num 0, true)]

/-- Fold a list of `insert`s (each panics on a duplicate name). -/
def insertAll (vars : Variables) : List (Txt × Value × Bool) → Option Variables
  | [] => some vars
  | (nm, v, c) :: rest =>
    match vars.insertVar nm ⟨nm, v, c⟩ with
    | none => none
    | some vars' => insertAll vars' rest

/-- The `@`-prefixed property constants (`Property::PROPERTIES`). -/
def propertyEntries : List (Txt × Value × Bool) :=
  propertyVocabulary.map (fun nm => ('@' :: nm, .prop nm, true))

/-- One constant slot per declared device, bound to the device reference
(`i` is the position in the device list). -/
def deviceEntriesAux (i : Nat) : List BuildingState → List (Txt × Value × Bool)
  | [] => []
  | b :: rest => (b.name, .building (.linked i), true) :: deviceEntriesAux (i + 1) rest

def deviceEntries (binits : List BuildingState) : List (Txt × Value × Bool) :=
  deviceEntriesAux 0 binits

/-- Rust `str::split('\n')` (keeps empty pieces; `""` gives one empty piece). -/
def splitNl : Txt → List Txt
  | [] => [[]]
  | c :: r =>
    if c = '\n' then [] :: splitNl r
    else
      match splitNl r with
      | [] => [[c]]
      | s :: ss => (c :: s) :: ss

/-- Parse all lines (`filter_map(|ln| Instruction::parse(ln, &mut vars))`). -/
def parseAll (ps : PState) : List Txt → Res VmError (List Instruction × PState)
  | [] => .ok ([], ps)
  | ln :: rest =>
    match Instruction.parse ln ps with
    | .crash => .crash
    | .err e => .err e
    | .ok (none, ps') => parseAll ps' rest
    | .ok (some i, ps') =>
      match parseAll ps' rest with
      | .crash => .crash
      | .err e => .err e
      | .ok (is, ps'') => .ok (i :: is, ps'')

/-- `VM::new`: seed the builtins, the property constants and the device
slots, parse the program, enforce `EmptyCode`/`CodeTooLong`, then install the
`@this` processor through the privileged setter. -/
def vmNew (ops : MathOps) (code : Txt) (codeLenLimit : Nat)
    (binits : List BuildingState) : Res VmError VMState :=
  match insertAll ⟨[], []⟩
      (builtinTable ops binits.length ++ propertyEntries ++ deviceEntries binits) with
  | none => .crash
  | some vars0 =>
    match parseAll ⟨vars0, []⟩ (splitNl code) with
    | .crash => .crash
    | .err e => .err e
    | .ok (insts, ps) =>
      if insts.isEmpty then .err .emptyCode
      else if codeLenLimit < insts.length then
        .err (.codeTooLong insts.length codeLenLimit)
      else
        match ps.vars.getHandle "@counter".toList with
        | none => .crash
        | some pcH =>
          match ps.vars.getHandle "@this".toList with
          | none => .crash
          | some thisH =>
            .ok { vars := ps.vars.forceSetVal thisH (.building .this),
                  strs := ps.strs,
                  buildings := binits,
                  buffer := [],
                  pcHandle := pcH,
                  code := insts,
                  rng := 0 }

/-! ## Envelope (`interface.rs`) -/

inductive DeviceSpec where
  | message
  | memory (capacity : Nat)
deriving DecidableEq, Repr

structure Options where
  code : Txt
  codeLenLimit : Option Nat
  insLimit : Option Nat
  endOnWrap : Bool
  devices : List (Txt × DeviceSpec)

/-- `Device::construct`: the initial state of a declared device. -/
def DeviceSpec.construct (nm : Txt) : DeviceSpec → BuildingState
  | .message => ⟨nm, .message []⟩
  | .memory capacity => ⟨nm, .memory (List.replicate capacity 0)⟩

inductive DeviceState where
  | message (text : Txt)
  | memory (data : List Frac)
deriving DecidableEq, Repr

inductive ErrorPos where
  | instruction (i : Nat)
  | none
  | pcFetch
deriving DecidableEq, Repr

/-- An apostrophe character (kept out of string literals). -/
def apos : Char := Char.ofNat 39

/-- `VmError::print` — the message body of each error variant. -/
def vmErrorText : VmError → Txt
  | .invalidCast v f t =>
    "Cannot cast value ".toList ++ apos :: v ++ apos :: " of type ".toList ++
      apos :: f ++ apos :: " to type ".toList ++ apos :: t ++ [apos]
  | .invalidBuildingType a n =>
    "Cannot ".toList ++ a ++ " building ".toList ++ apos :: n ++ [apos]
  | .variableNotFound n => "Variable not found: ".toList ++ apos :: n ++ [apos]
  | .constantMutation n =>
    "Cannot mutate constant variable ".toList ++ apos :: n ++ [apos]
  | .emptyCode => "Program is empty".toList
  | .codeTooLong len limit =>
    "Program has too many instructions (".toList ++ Nat.toDigits 10 len ++
      " > ".toList ++ Nat.toDigits 10 limit ++ [')']
  | .invalidCharacter ch =>
    "Invalid UTF-16 character: ".toList ++ Nat.toDigits 10 ch
  | .negativeIndex idx device =>
    "Negative index (".toList ++ intDisplay idx ++ ") for ".toList ++ device
  | .indexTooHigh idx limit device =>
    "Index out of range (".toList ++ Nat.toDigits 10 idx ++ " >= ".toList ++
      Nat.toDigits 10 limit ++ ") for ".toList ++ device
  | .pcResError e => vmErrorText e
  | .invalidFormat msg => "Invalid format - ".toList ++ msg
  | .noProperty v t p =>
    "Value ".toList ++ apos :: v ++ apos :: " of type ".toList ++ apos :: t ++
      apos :: " has no property ".toList ++ apos :: p ++ [apos]
  | .invalidOperation op => "Invalid operation: ".toList ++ apos :: op ++ [apos]
  | .divisionByZero => "Division by zero".toList

/-- `Display for VmError`. -/
def vmErrorDisplay (e : VmError) : Txt :=
  match e with
  | .pcResError _ =>
    "Error during program counter resolution: ".toList ++ vmErrorText e
  | _ => "Error: ".toList ++ vmErrorText e

/-- `Display for PosVmError`. -/
def posVmErrorDisplay (e : PosVmError) : Txt :=
  match e.pos with
  | some pos =>
    "Error at instruction ".toList ++ Nat.toDigits 10 pos ++ ": ".toList ++
      vmErrorText e.err
  | none => vmErrorDisplay e.err

inductive Output where
  | success (finishReason : VmFinishReason) (devices : List (Txt × DeviceState))
      (printBuffer : Txt)
  | failure (pos : ErrorPos) (msg : Txt)
deriving DecidableEq, Repr

/-- The per-device snapshot getters built by `Device::construct`. -/
def snapshotDevices (names : List Txt) (buildings : List BuildingState) :
    List (Txt × DeviceState) :=
  List.zipWith
    (fun nm b =>
      (nm, match b.kind with
           | .message t => DeviceState.message t
           | .memory d => DeviceState.memory d
           | .processor => DeviceState.message []))
    names buildings

/-- `usize::MAX` (the cycle budget when no instruction limit is given). -/
def usizeMax : Nat := 2 ^ 64 - 1

/-- `run_from_options`.  `none` models a process abort: the construction
result is `.unwrap()`-ed, so a construction-time `Err` PANICS instead of
producing an `Output::Failure`. -/
def runFromOptions (ops : MathOps) (opts : Options) : Option Output :=
  let binits := opts.devices.map (fun p => p.2.construct p.1)
  match vmNew ops opts.code (opts.codeLenLimit.getD 1000) binits with
  | .crash => none
  | .err _ => none
  | .ok vm =>
    match runVM ops (opts.insLimit.getD usizeMax) opts.endOnWrap vm with
    | .crash => none
    | .err e =>
      some (.failure
        (match e.pos with
         | some p => .instruction p
         | none =>
           match e.err with
           | .pcResError _ => .pcFetch
           | _ => ErrorPos.none)
        (posVmErrorDisplay e))
    | .ok (fr, σ') =>
      some (.success fr (snapshotDevices (opts.devices.map (·.1)) σ'.buildings)
        σ'.buffer)

/-! ## Observation helpers used by the claims -/

/-- `VM::get_val` (lookup a variable's current value by name). -/
def getValByName (σ : VMState) (nm : Txt) : VmRes Value :=
  match σ.vars.getHandle nm with
  | none => .err (.variableNotFound nm)
  | some h => σ.vars.getVal h

/-- The instruction a cycle starting from `σ` would dispatch (recomputing
the program-counter resolution, wrap included). -/
def resolvedIns (σ : VMState) : Option Instruction := do
  let pcv ← (σ.vars.getVal σ.pcHandle).toOption
  let pc ← (pcv.asInt σ.strs σ.buildings).toOption
  if pc < 0 then none
  else σ.code[if (σ.code.length : Int) ≤ pc then 0 else pc.toNat]?

/-- Print-buffer event of one cycle: text appended by the executed
instruction, or a flush delivering `delivered` to the named device. -/
inductive PEvent where
  | app (s : Txt)
  | flush (device : Txt) (delivered : Txt)
deriving DecidableEq, Repr

/-- The text of a message building, if that is what the slot holds. -/
def msgTextOf : Option BuildingState → Txt
  | some ⟨_, .message t⟩ => t
  | _ => []

/-- The message text a device reference holds in a state. -/
def flushTextOf (σ : VMState) : BRef → Txt
  | .linked i => msgTextOf σ.buildings[i]?
  | .this => []

/-- Flush event: the flushed device (as evaluated, a successful flush never
touches the store) and the text it holds afterwards. -/
def flushEventAux (σ σ' : VMState) : VmRes Value → PEvent
  | .ok (.building r) => .flush (brefName σ'.buildings r) (flushTextOf σ' r)
  | _ => .app (σ'.buffer.drop σ.buffer.length)

def stepEventAux (σ σ' : VMState) : Option Instruction → PEvent
  | some (.printFlush arg) => flushEventAux σ σ' (evalArg arg σ'.vars)
  | _ => .app (σ'.buffer.drop σ.buffer.length)

/-- The event observed between the pre-state and post-state of a successful
cycle: a cycle dispatching `printflush` delivers to the device it names (read
off the post-state, whose text a successful flush has just replaced); any
other cycle appends the buffer growth. -/
def stepEvent (σ σ' : VMState) : PEvent :=
  stepEventAux σ σ' (resolvedIns σ)

/-- `run` instrumented with the per-cycle print events. -/
def runTrace (ops : MathOps) :
    Nat → Bool → VMState → PosRes (VmFinishReason × VMState) × List PEvent
  | 0, _, σ => (.ok (.insLimit, σ), [])
  | n + 1, endOnWrap, σ =>
    match cycle ops σ with
    | .crash => (.crash, [])
    | .err e => (.err e, [])
    | .ok (σ', wrap, halt) =>
      let ev := stepEvent σ σ'
      if halt then (.ok (.halt, σ'), [ev])
      else if wrap ∧ endOnWrap then (.ok (.pcWrap, σ'), [ev])
      else
        let (res, evs) := runTrace ops n endOnWrap σ'
        (res, ev :: evs)

/-- Check that every flush in the event list delivered exactly the
concatenation of everything appended since the previous flush (`acc` is the
text accumulated so far). -/
def traceOKFrom (acc : Txt) : List PEvent → Bool
  | [] => true
  | .app s :: rest => traceOKFrom (acc ++ s) rest
  | .flush _ t :: rest => decide (t = acc) && traceOKFrom [] rest

/-- The buffer contents predicted from an event list. -/
def bufAcc (acc : Txt) : List PEvent → Txt
  | [] => acc
  | .app s :: rest => bufAcc (acc ++ s) rest
  | .flush _ _ :: rest => bufAcc [] rest

/-! ## Spec-side lexer (for the refinement claim C8) -/

/-- Modelled from the spec: "fields are separated by ASCII spaces; a
double-quote toggles inside-quotes mode and within it spaces do not split;
the surrounding quotes are retained in the token.  Empty input yields an
empty sequence.  A trailing non-empty field is emitted."  `pending` is the
current field, `qs` the inside-quotes mode. -/
def specSplitAux (pending : Txt) (qs : Bool) : Txt → List Txt
  | [] => if pending = [] then [] else [pending]
  | c :: rest =>
    if c = ' ' ∧ qs = false then pending :: specSplitAux [] qs rest
    else specSplitAux (pending ++ [c]) (if c = '"' then ! qs else qs) rest

/-- Modelled from the spec: the field splitting of §4.1. -/
def specSplit (line : Txt) : List Txt :=
  specSplitAux [] false line

/-- The accumulator form of the `split_line` loop: `pending` stands for the
slice `line[start..i]`. -/
def splitAcc (pending : Txt) (ns qs : Bool) : Txt → List Txt
  | [] => if pending = [] then [] else [pending]
  | c :: rest =>
    if c = ' ' ∧ qs = false then
      pending :: splitAcc (pending ++ [c]) true qs rest
    else
      splitAcc (if ns then [c] else pending ++ [c]) false
        (if c = '"' then ! qs else qs) rest

/-- A line is `good` when every unquoted space is immediately followed by a
character that is not a space (so in particular no line-final unquoted
space); on such lines `split_line`'s stale `start` index is harmless. -/
def goodLine (qs : Bool) : Txt → Bool
  | [] => true
  | [c] => ! decide (c = ' ' ∧ qs = false)
  | c :: c' :: rest =>
    if c = ' ' ∧ qs = false then decide (c' ≠ ' ') && goodLine qs (c' :: rest)
    else goodLine (if c = '"' then ! qs else qs) (c' :: rest)

/-! ## Constant-slot predicate (for claim C6) -/

/-- `nm` names a constant slot of the store: the lookup succeeds and the
slot it designates carries that name with the constant flag set. -/
def NamedConst (vars : Variables) (nm : Txt) : Prop :=
  ∃ h, vars.lookupName nm = some h ∧
    (vars.slot h).map (fun s => (s.name, s.constant)) = some (nm, true)

/-! ## Concrete states used by counterexamples and witnesses -/

def emptyVMState : VMState := ⟨⟨[], []⟩, [], [], [], 0, [], 0⟩

/-- Construct a VM from source text with `dummyOps` (for concrete tests). -/
def vmOf (code : String) (binits : List BuildingState) : VMState :=
  match vmNew dummyOps code.toList 1000 binits with
  | .ok vm => vm
  | _ => emptyVMState

/-- The final state of a bounded run (for concrete tests). -/
def stateAfter (n : Nat) (σ : VMState) : VMState :=
  match runVM dummyOps n false σ with
  | .ok (_, σ') => σ'
  | _ => emptyVMState

/-- C1 scenario: a three-instruction program whose second instruction sets
`@counter` to 4, so the following cycle starts from pc = 4 and wraps. -/
def c1vm : VMState := vmOf "print 1\nset @counter 4\nprint 2" []

def c1mid : VMState := stateAfter 2 c1vm

def c1fin : VMState := stateAfter 3 c1vm

/-- C3 scenario: an unconditional jump whose destination is a string. -/
def c3vm : VMState := vmOf "jump \"x\" always 0 0\nprint 1" []

def c3mid : VMState := stateAfter 1 c3vm

/-- C4 scenario: two equal string literals, the first of which has had its
UTF-16 view materialised by a `read`. -/
def c4vm : VMState :=
  vmOf "set a \"AB\"\nset b \"AB\"\nread x a 0\nop equal y a b" []

def c4fin : VMState := stateAfter 4 c4vm

/-- C2 scenario: sensing `@memoryCapacity` of a 4-cell memory bank. -/
def c2vm : VMState :=
  vmOf "sensor x cell @memoryCapacity" [⟨"cell".toList, .memory (List.replicate 4 0)⟩]

/-- C5 witness scenario (spec end-to-end scenario 1). -/
def c5vm : VMState :=
  vmOf "set x 1\nprint x\nprint \"abc\"\nprintflush m1" [⟨"m1".toList, .message []⟩]

/-- The largest f64 strictly below `1.0`, namely `1 - 2⁻⁵³`. -/
def belowOne : Frac := ⟨9007199254740991, 9007199254740992⟩

/-! # Claims -/

/-! ## Small rewriting lemmas for the `Res` monad -/

theorem Res.pure_def {ε α : Type} (a : α) : (pure a : Res ε α) = .ok a := rfl

theorem Res.bind_def {ε α β : Type} (x : Res ε α) (f : α → Res ε β) :
    x >>= f = Res.bind x f := rfl

theorem Res.ok_bind {ε α β : Type} (a : α) (f : α → Res ε β) :
    Res.bind (.ok a) f = f a := rfl


/-- C2: `MemoryBuilding` implements no `sense`, so `sensor dst cell
@memoryCapacity` on a 4-cell memory bank does NOT write `Num(4)` to `dst`:
the trait-default answers `InvalidBuildingType("sense from", "cell")` and the
run aborts at instruction 0.  The spec's "`sense(memoryCapacity)` returns
length" describes the evident intent of the `memoryCapacity` property
vocabulary, which the code never wires up. -/
theorem C2_memory_sense_fails :
    vmNew dummyOps "sensor x cell @memoryCapacity".toList 1000
      [⟨"cell".toList, .memory (List.replicate 4 0)⟩] = .ok c2vm ∧
    runVM dummyOps 1 true c2vm =
      .err ⟨.invalidBuildingType "sense from".toList "cell".toList, some 0⟩ := by
  decide

/-- C4: derived `PartialEq` on `LazyUtf16String` compares the memoised
`OnceCell` too, so `op equal` on two `"AB"` literals yields `Num(0)` once one
of them (and not the other) has materialised its UTF-16 view via `read` —
although both cells hold the text `AB`.  The spec's "`Str` compares
underlying text" is the intent; comparing the cache is a slip. -/
theorem C4_str_equality_ignores_text :
    vmNew dummyOps "set a \"AB\"\nset b \"AB\"\nread x a 0\nop equal y a b".toList
      1000 [] = .ok c4vm ∧
    runVM dummyOps 4 false c4vm = .ok (.insLimit, c4fin) ∧
    getValByName c4fin "y".toList = .ok (.num 0) ∧
    c4fin.strs.map StrCell.text = ["AB".toList, "AB".toList] ∧
    c4fin.strs.map (fun c => c.utf16.isSome) = [true, false] := by
  decide

/-- C1 counterexample: with the three-instruction program below, the cycle
starting from `@counter = 4` wraps to instruction 0 (a `print`, which does
not write `@counter`) and leaves `@counter = Num(1)`, not
`Num((4 mod 3) + 1) = Num(2)` as the claim states. -/
theorem C1_mod_counterexample :
    vmNew dummyOps "print 1\nset @counter 4\nprint 2".toList 1000 [] = .ok c1vm ∧
    runVM dummyOps 2 false c1vm = .ok (.insLimit, c1mid) ∧
    getValByName c1mid "@counter".toList = .ok (.num 4) ∧
    c1mid.code.length = 3 ∧
    c1mid.code[0]? = some (.print (.value (.num 1))) ∧
    cycle dummyOps c1mid = .ok (c1fin, true, false) ∧
    getValByName c1fin "@counter".toList = .ok (.num 1) ∧
    (4 % 3 + 1 : Nat) = 2 ∧
    Value.num 1 ≠ Value.num 2 := by
  decide

/-- C3 counterexample: `jump "x" always 0 0` executes WITHOUT failing — the
cycle succeeds and `@counter` afterwards holds the string value itself (no
`as_num` coercion); the `InvalidCast` only surfaces on the NEXT cycle's
program-counter resolution, tagged `PcResError` with no instruction
position, contradicting the claimed failure of the jump instruction at its
own position. -/
theorem C3_jump_noncast_counterexample :
    vmNew dummyOps "jump \"x\" always 0 0\nprint 1".toList 1000 [] = .ok c3vm ∧
    cycle dummyOps c3vm = .ok (c3mid, false, false) ∧
    getValByName c3mid "@counter".toList = .ok (.str 0) ∧
    c3mid.strs.map StrCell.text = ["x".toList] ∧
    cycle dummyOps c3mid =
      .err ⟨.pcResError (.invalidCast "x".toList "str".toList "num".toList),
            none⟩ := by
  decide

/-- C7 counterexample: on the largest f64 below `1.0` the epsilon test
passes (`round(x) = 1`, `|1 - x| = 2⁻⁵³ < 2⁻⁵²`), but `as_int` returns the
`as i64` truncation `0`, not the nearest integer `1` the claim promises. -/
theorem C7_round_counterexample :
    Value.asInt [] [] (.num belowOne) = .ok 0 ∧
    rustRound belowOne = 1 ∧ (0 : Int) ≠ 1 := by
  decide

/-- C8 counterexample: on the quote-free line `"a "` (trailing space) the
lexer emits the token `"a "` — a token containing a space — because `start`
is not advanced after the preceding push; the fields separated by spaces
would be just `["a"]`. -/
theorem C8_split_counterexample :
    splitLine "a ".toList = ["a".toList, "a ".toList] ∧
    (∃ t ∈ splitLine "a ".toList, ' ' ∈ t) ∧
    '"' ∉ "a ".toList ∧
    specSplit "a ".toList = ["a".toList] := by
  decide

/-- C9 counterexample: an empty program makes `VM::new` fail with
`EmptyCode`, and `run_from_options` `.unwrap()`s that result — the process
panics (modelled `none`) instead of returning an `Output::Failure`. -/
theorem C9_construction_panic_counterexample :
    vmNew dummyOps "".toList 1000 [] = .err .emptyCode ∧
    runFromOptions dummyOps ⟨"".toList, none, some 10, true, []⟩ = none := by
  decide

/-- C7 (amended): `as_int` succeeds exactly on `Num(x)` whose distance to
its nearest integer (`f64::round`, half away from zero) is below machine
epsilon; in that case it returns the `as i64` cast of `x` — truncation
toward zero saturating at the i64 range — NOT the rounded integer; on any
other value it fails with `InvalidCast`. -/
theorem C7_as_int_amended (strs : List StrCell) (bs : List BuildingState) (v : Value) :
    ((∃ k, v.asInt strs bs = .ok k) ↔
      ∃ x, v = .num x ∧ ((Frac.ofInt (rustRound x)).sub x).fabs < f64Epsilon) ∧
    (∀ x, v = .num x → ((Frac.ofInt (rustRound x)).sub x).fabs < f64Epsilon →
      v.asInt strs bs = .ok (f64AsI64 x)) ∧
    (∀ x, v = .num x → ¬ ((Frac.ofInt (rustRound x)).sub x).fabs < f64Epsilon →
      v.asInt strs bs = .err (Value.invalidCastErr strs bs v "int".toList)) ∧
    ((∀ x, v ≠ .num x) →
      v.asInt strs bs = .err (Value.invalidCastErr strs bs v "num".toList)) := by
  refine ⟨⟨?_, ?_⟩, ?_, ?_, ?_⟩
  · rintro ⟨k, hk⟩
    cases v <;> simp [Value.asInt, Value.asNum] at hk
    case num q =>
      by_cases hq : ((Frac.ofInt (rustRound q)).sub q).fabs < f64Epsilon
      · exact ⟨q, rfl, hq⟩
      · simp [hq] at hk
  · rintro ⟨x, rfl, hx⟩
    exact ⟨f64AsI64 x, by simp [Value.asInt, Value.asNum, hx]⟩
  · rintro x rfl hx
    simp [Value.asInt, Value.asNum, hx]
  · rintro x rfl hx
    simp [Value.asInt, Value.asNum, hx]
  · intro hx
    cases v <;> simp [Value.asInt, Value.asNum, Value.invalidCastErr]
    case num q => exact absurd rfl (hx q)

/-- C7 witness: at `Num(3)` the theorem yields `as_int = Ok(3)`. -/
theorem C7_as_int_witness :
    Value.asInt [] [] (.num 3) = .ok 3 := by
  have h := (C7_as_int_amended [] [] (.num 3)).2.1 3 rfl (by decide)
  simpa using h

/-- C9 (amended): when VM construction fails, `run_from_options` panics
(the constructed result is `.unwrap()`-ed) instead of returning a `Failure`
output. -/
theorem C9_construction_panics_amended (ops : MathOps) (opts : Options) (e : VmError)
    (h : vmNew ops opts.code (opts.codeLenLimit.getD 1000)
      (opts.devices.map (fun p => p.2.construct p.1)) = .err e) :
    runFromOptions ops opts = none := by
  simp only [runFromOptions, h]

/-- C9 witness: the empty program construction error makes the envelope
panic. -/
theorem C9_construction_panics_witness :
    runFromOptions dummyOps ⟨"".toList, none, some 10, true, []⟩ = none :=
  C9_construction_panics_amended dummyOps ⟨"".toList, none, some 10, true, []⟩
    .emptyCode (by decide)

/-- C10: when `as_int` yields `k`, `printchar` appends the UTF-16 code unit
`k mod 2¹⁶` (the `as u16` truncation — out-of-range values silently wrap)
and fails with `InvalidCharacter` exactly when that unit is an unpaired
surrogate `0xD800..=0xDFFF`. -/
theorem C10_printchar_wraps (ops : MathOps) (σ : VMState) (arg : ValueArg)
    (v : Value) (k : Int)
    (hv : evalArg arg σ.vars = .ok v)
    (hk : v.asInt σ.strs σ.buildings = .ok k) :
    execute ops (.printChar arg) σ =
      if 0xD800 ≤ (k % 65536).toNat ∧ (k % 65536).toNat ≤ 0xDFFF
      then .err (.invalidCharacter (k % 65536).toNat)
      else .ok ({ σ with buffer := σ.buffer ++ [Char.ofNat (k % 65536).toNat] },
                false) := by
  simp [execute, hv, hk, i64AsU16, bind, Res.bind, Res.pure_def]

/-- C10 witness: `printchar 70000` appends code unit `70000 mod 2¹⁶ = 4464`
(not a surrogate) instead of failing. -/
theorem C10_printchar_wraps_witness :
    execute dummyOps (.printChar (.value (.num 70000))) c1vm =
      .ok ({ c1vm with buffer := c1vm.buffer ++ [Char.ofNat 4464] }, false) := by
  have h := C10_printchar_wraps dummyOps c1vm (.value (.num 70000)) (.num 70000)
    70000 (by decide) (by decide)
  simpa using h

/-! ## Store lemmas -/

theorem setVal_ok_facts {vars vars' : Variables} {h : Nat} {v : Value}
    (hs : vars.setVal h v = .ok vars') :
    (vars'.slot h).map (fun s => s.value) = some v ∧
    vars'.byName = vars.byName ∧
    (vars'.slot h).map (fun s => (s.name, s.constant)) =
      (vars.slot h).map (fun s => (s.name, s.constant)) := by
  unfold Variables.setVal at hs
  cases hg : vars.slots[h]? with
  | none => rw [hg] at hs; exact absurd hs (by simp)
  | some s =>
    rw [hg] at hs
    by_cases hc : s.constant
    · simp [hc] at hs
    · rw [Bool.not_eq_true] at hc
      simp only [hc, Bool.false_eq_true, if_false] at hs
      cases hs
      have hlen : h < vars.slots.length := by
        exact (List.getElem?_eq_some_iff.mp hg).1
      refine ⟨?_, rfl, ?_⟩
      · simp [Variables.slot, List.getElem?_set_self, hlen]
      · simp [Variables.slot, List.getElem?_set_self, hlen, hg, hc]

/-- `VarHandle::val` after a successful `set` reads back the written value. -/
theorem getVal_after_setVal {vars vars' : Variables} {h : Nat} {v : Value}
    (hs : vars.setVal h v = .ok vars') :
    vars'.getVal h = .ok v := by
  have := (setVal_ok_facts hs).1
  unfold Variables.getVal Res.ofPanic
  cases hx : vars'.slot h with
  | none => rw [hx] at this; exact absurd this (by simp)
  | some s =>
    rw [hx] at this
    simp at this
    simp [hx, this]

/-! ## Cycle characterisation -/

/-- Introduction form of a successful cycle: resolution, wrap, advance,
dispatch. -/
theorem cycle_ok_intro (ops : MathOps) (σ σ' : VMState) (pcv : Value)
    (pc : Int) (pcu : Nat) (wrap halt : Bool) (vars1 : Variables)
    (ins : Instruction)
    (h1 : σ.vars.getVal σ.pcHandle = .ok pcv)
    (h2 : pcv.asInt σ.strs σ.buildings = .ok pc)
    (h3 : ¬ pc < 0)
    (hw : ((if (σ.code.length : Int) ≤ pc then ((0 : Nat), true)
            else (pc.toNat, false)) : Nat × Bool) = (pcu, wrap))
    (h4 : σ.vars.setVal σ.pcHandle (.num (Frac.ofNat (pcu + 1))) = .ok vars1)
    (h5 : σ.code[pcu]? = some ins)
    (h6 : execute ops ins { σ with vars := vars1 } = .ok (σ', halt)) :
    cycle ops σ = .ok (σ', wrap, halt) := by
  unfold cycle
  simp only [h1, h2, h3, hw, h4, h5, h6, if_false, ite_false]

/-- C1 (amended): a cycle whose pre-cycle `@counter` resolves to a
non-negative `pc` and whose dispatched instruction leaves the `@counter`
slot as the advance wrote it, ends with `@counter = Num(w + 1)` where
`w = pc` if `pc < code.len` and `w = 0` otherwise (the wrap resets to the
top, it does not reduce modulo the length). -/
theorem C1_pc_advance_amended (ops : MathOps) (σ σ' : VMState) (pcv : Value)
    (pc : Int) (pcu : Nat) (wrap halt : Bool) (vars1 : Variables)
    (ins : Instruction)
    (h1 : σ.vars.getVal σ.pcHandle = .ok pcv)
    (h2 : pcv.asInt σ.strs σ.buildings = .ok pc)
    (h3 : ¬ pc < 0)
    (hw : ((if (σ.code.length : Int) ≤ pc then ((0 : Nat), true)
            else (pc.toNat, false)) : Nat × Bool) = (pcu, wrap))
    (h4 : σ.vars.setVal σ.pcHandle (.num (Frac.ofNat (pcu + 1))) = .ok vars1)
    (h5 : σ.code[pcu]? = some ins)
    (h6 : execute ops ins { σ with vars := vars1 } = .ok (σ', halt))
    (h7 : σ'.vars.slot σ.pcHandle = vars1.slot σ.pcHandle) :
    cycle ops σ = .ok (σ', wrap, halt) ∧
    (σ'.vars.slot σ.pcHandle).map (fun s => s.value) =
      some (.num (Frac.ofNat (pcu + 1))) := by
  refine ⟨cycle_ok_intro ops σ σ' pcv pc pcu wrap halt vars1 ins
    h1 h2 h3 hw h4 h5 h6, ?_⟩
  rw [h7]
  exact (setVal_ok_facts h4).1

/-- C1 witness: the wrapping cycle of the counterexample trajectory,
through the amended theorem (`pc = 4`, three instructions, `w = 0`). -/
theorem C1_pc_advance_witness :
    cycle dummyOps c1mid = .ok (c1fin, true, false) ∧
    (c1fin.vars.slot c1mid.pcHandle).map (fun s => s.value) =
      some (.num (Frac.ofNat (0 + 1))) :=
  C1_pc_advance_amended dummyOps c1mid c1fin (.num 4) 4 0 true false
    c1fin.vars (.print (.value (.num 1)))
    (by decide) (by decide) (by decide) (by decide) (by decide) (by decide)
    (by decide) (by decide)

/-- C3 (amended): a taken `jump` writes the evaluated destination value
DIRECTLY to `@counter` — no `as_num` coercion — so the jump itself succeeds
even when the destination is not a number; in that case the failure appears
only at the next cycle's program-counter resolution, as a
`PcResError`-tagged `InvalidCast` carrying no instruction position. -/
theorem C3_jump_writes_raw_amended (ops : MathOps) (σ : VMState)
    (dst : ValueArg) (cmp : Txt) (a b : ValueArg) (v : Value)
    (vars' : Variables)
    (hc : jumpCond cmp a b σ = .ok true)
    (hv : evalArg dst σ.vars = .ok v)
    (hs : σ.vars.setVal σ.pcHandle v = .ok vars') :
    execute ops (.jump dst cmp a b) σ = .ok ({ σ with vars := vars' }, false) ∧
    ∀ e, v.asInt σ.strs σ.buildings = .err e →
      cycle ops { σ with vars := vars' } = .err ⟨.pcResError e, none⟩ := by
  constructor
  · simp [execute, hc, hv, hs, bind, Res.bind, Res.pure_def]
  · intro e he
    have hget : vars'.getVal σ.pcHandle = .ok v := getVal_after_setVal hs
    unfold cycle
    simp only [hget, he]

/-- C3 witness: the concrete string-destination jump of the counterexample
trajectory, through the amended theorem. -/
theorem C3_jump_writes_raw_witness :
    ∃ vars', execute dummyOps
      (.jump (.value (.str 0)) "always".toList (.value (.num 0))
        (.value (.num 0))) c3vm = .ok ({ c3vm with vars := vars' }, false) ∧
      ∀ e, Value.asInt c3vm.strs c3vm.buildings (.str 0) = .err e →
        cycle dummyOps { c3vm with vars := vars' } =
          .err ⟨.pcResError e, none⟩ :=
  ⟨(match c3vm.vars.setVal c3vm.pcHandle (.str 0) with
    | .ok w => w
    | _ => ⟨[], []⟩),
   C3_jump_writes_raw_amended dummyOps c3vm (.value (.str 0)) "always".toList
     (.value (.num 0)) (.value (.num 0)) (.str 0) _
     (by decide) (by decide) (by decide)⟩

/-! ## Preservation of constant slots (for C6) -/

/-- Appending slots and name entries preserves a named constant slot. -/
theorem namedConst_extend {vars : Variables} {nm : Txt}
    (slotsAdd : List Variable) (nmAdd : List (Txt × Nat))
    (h : NamedConst vars nm) :
    NamedConst ⟨vars.slots ++ slotsAdd, vars.byName ++ nmAdd⟩ nm := by
  obtain ⟨i, hlook, hslot⟩ := h
  refine ⟨i, ?_, ?_⟩
  · unfold Variables.lookupName at hlook ⊢
    cases hf : vars.byName.find? (fun p => p.1 = nm) with
    | none => rw [hf] at hlook; exact absurd hlook (by simp)
    | some pr =>
      rw [hf] at hlook
      simp at hlook
      simp only [List.find?_append, hf]
      simpa using hlook
  · cases hs : vars.slot i with
      | none => rw [hs] at hslot; exact absurd hslot (by simp)
      | some s =>
        have hi : i < vars.slots.length := (List.getElem?_eq_some_iff.mp hs).1
        rw [hs] at hslot
        unfold Variables.slot at hs ⊢
        simp only [List.getElem?_append]
        rw [if_pos hi, hs]
        exact hslot

/-- `Variables::handle` preserves named constant slots. -/
theorem namedConst_handle {vars : Variables} {nm t : Txt}
    (h : NamedConst vars nm) : NamedConst (vars.handle t).2 nm := by
  unfold Variables.handle
  cases hl : vars.lookupName t with
  | some idx => exact h
  | none => exact namedConst_extend _ _ h

/-- `Variables::insert` (when it does not panic) preserves named constant
slots. -/
theorem namedConst_insertVar {vars vars' : Variables} {nm t : Txt}
    {v : Variable} (hi : vars.insertVar t v = some vars')
    (h : NamedConst vars nm) : NamedConst vars' nm := by
  unfold Variables.insertVar at hi
  cases hl : vars.lookupName t with
  | some idx => rw [hl] at hi; exact absurd hi (by simp)
  | none =>
    rw [hl] at hi
    simp at hi
    rw [← hi]
    exact namedConst_extend _ _ h

/-- The privileged `force_set` (used for `@this`) changes only a value,
never a name or the constant flag. -/
theorem namedConst_forceSet {vars : Variables} {nm : Txt} (t : Nat) (v : Value)
    (h : NamedConst vars nm) : NamedConst (vars.forceSetVal t v) nm := by
  obtain ⟨i, hlook, hslot⟩ := h
  unfold Variables.forceSetVal
  cases hg : vars.slots[t]? with
  | none => exact ⟨i, hlook, hslot⟩
  | some s =>
    refine ⟨i, hlook, ?_⟩
    cases hs : vars.slot i with
    | none => rw [hs] at hslot; exact absurd hslot (by simp)
    | some si =>
      rw [hs] at hslot
      have hi : i < vars.slots.length := (List.getElem?_eq_some_iff.mp hs).1
      unfold Variables.slot at hs ⊢
      by_cases hti : t = i
      · subst hti
        have : s = si := by rw [hg] at hs; exact Option.some.inj hs
        subst this
        simp only [List.getElem?_set_self, hi]
        simpa using hslot
      · simp only [List.getElem?_set_ne hti]
        rw [hs]
        exact hslot

/-- `ValueArg::parse` preserves named constant slots. -/
theorem namedConst_valueArgParse {t : Txt} {ps : PState}
    {pr : ValueArg × PState} {nm : Txt} (hp : ValueArg.parse t ps = .ok pr)
    (h : NamedConst ps.vars nm) : NamedConst pr.2.vars nm := by
  unfold ValueArg.parse at hp
  split at hp
  · split at hp
    · exact absurd hp (by simp)
    · cases hp; exact h
  · split at hp
    · cases hp; exact h
    · cases hp; exact namedConst_handle h

/-- `arg!(out, ...)` preserves named constant slots. -/
theorem namedConst_outArg {args : List Txt} {i : Nat} {ps : PState}
    {pr : Nat × PState} {nm : Txt} (hp : outArg args i ps = .ok pr)
    (h : NamedConst ps.vars nm) : NamedConst pr.2.vars nm := by
  unfold outArg at hp
  split at hp
  · exact absurd hp (by simp)
  · cases hp; exact namedConst_handle h

/-- `arg!(in, ...)` preserves named constant slots. -/
theorem namedConst_inArg {args : List Txt} {i : Nat} {ps : PState}
    {pr : ValueArg × PState} {nm : Txt} (hp : inArg args i ps = .ok pr)
    (h : NamedConst ps.vars nm) : NamedConst pr.2.vars nm := by
  unfold inArg at hp
  split at hp
  · exact absurd hp (by simp)
  · exact namedConst_valueArgParse hp h

/-- `Instruction::parse` preserves named constant slots (every store
mutation it performs goes through `handle`). -/
theorem namedConst_parseArgs {c : OpCode} {args : List Txt} {ps ps' : PState}
    {i : Instruction} {nm : Txt}
    (hp : parseArgs c args ps = .ok (i, ps'))
    (h : NamedConst ps.vars nm) : NamedConst ps'.vars nm := by
  cases c <;>
    (simp only [parseArgs, bind, Res.bind, Res.pure_def] at hp
     repeat' split at hp
     all_goals cases hp
     all_goals
       (repeat'
         first
         | exact h
         | (apply namedConst_outArg
            case hp => assumption)
         | (apply namedConst_inArg
            case hp => assumption)))

theorem namedConst_insParse {ln : Txt} {ps ps' : PState}
    {oi : Option Instruction} {nm : Txt}
    (hp : Instruction.parse ln ps = .ok (oi, ps'))
    (h : NamedConst ps.vars nm) : NamedConst ps'.vars nm := by
  unfold Instruction.parse at hp
  repeat' split at hp
  all_goals cases hp
  all_goals
    first
    | exact h
    | solve_by_elim [namedConst_parseArgs]

/-- Parsing a whole program preserves named constant slots. -/
theorem namedConst_parseAll {lns : List Txt} {ps ps' : PState}
    {insts : List Instruction} {nm : Txt}
    (hp : parseAll ps lns = .ok (insts, ps'))
    (h : NamedConst ps.vars nm) : NamedConst ps'.vars nm := by
  induction lns generalizing ps insts with
  | nil => unfold parseAll at hp; cases hp; exact h
  | cons ln rest ih =>
    unfold parseAll at hp
    repeat' split at hp
    all_goals
      first
      | (cases hp <;>
          exact ih (by assumption) (namedConst_insParse (by assumption) h))
      | exact ih hp (namedConst_insParse (by assumption) h)

/-- A successful `insert` creates the named constant slot it inserts. -/
theorem namedConst_insertVar_self {vars vars' : Variables} {nm : Txt}
    {val : Value} (hi : vars.insertVar nm ⟨nm, val, true⟩ = some vars') :
    NamedConst vars' nm := by
  unfold Variables.insertVar at hi
  cases hl : vars.lookupName nm with
  | some idx => rw [hl] at hi; exact absurd hi (by simp)
  | none =>
    rw [hl] at hi
    simp at hi
    subst hi
    refine ⟨vars.slots.length, ?_, ?_⟩
    · unfold Variables.lookupName at hl ⊢
      simp only [List.find?_append]
      cases hf : vars.byName.find? (fun p => p.1 = nm) with
      | none => simp [hf]
      | some pr => rw [hf] at hl; exact absurd hl (by simp)
    · unfold Variables.slot
      simp [List.getElem?_append_right (Nat.le_refl _)]

/-- `insertAll` preserves existing named constant slots. -/
theorem namedConst_insertAll {vars vars' : Variables} {nm : Txt}
    {entries : List (Txt × Value × Bool)}
    (hi : insertAll vars entries = some vars')
    (h : NamedConst vars nm) : NamedConst vars' nm := by
  induction entries generalizing vars with
  | nil => unfold insertAll at hi; cases hi; exact h
  | cons e rest ih =>
    unfold insertAll at hi
    obtain ⟨enm, ev, ec⟩ := e
    cases hv : vars.insertVar enm ⟨enm, ev, ec⟩ with
    | none => rw [hv] at hi; cases hi
    | some v1 => rw [hv] at hi; exact ih hi (namedConst_insertVar hv h)

/-- Every `(nm, val, true)` row of a successful `insertAll` ends up as a
named constant slot. -/
theorem namedConst_insertAll_mem {vars vars' : Variables} {nm : Txt}
    {val : Value} {entries : List (Txt × Value × Bool)}
    (hi : insertAll vars entries = some vars')
    (hm : (nm, val, true) ∈ entries) : NamedConst vars' nm := by
  induction entries generalizing vars with
  | nil => cases hm
  | cons e rest ih =>
    unfold insertAll at hi
    obtain ⟨enm, ev, ec⟩ := e
    cases hv : vars.insertVar enm ⟨enm, ev, ec⟩ with
    | none => rw [hv] at hi; cases hi
    | some v1 =>
      rw [hv] at hi
      rcases List.mem_cons.mp hm with heq | hrest
      · cases heq
        exact namedConst_insertAll hi (namedConst_insertVar_self hv)
      · exact ih hi hrest

/-- A device name yields a constant row of `deviceEntriesAux`. -/
theorem deviceEntriesAux_mem {binits : List BuildingState} {nm : Txt}
    (hm : nm ∈ binits.map BuildingState.name) :
    ∀ i, ∃ val, (nm, val, true) ∈ deviceEntriesAux i binits := by
  induction binits with
  | nil => cases hm
  | cons b rest ih =>
    intro i
    rcases List.mem_map.mp hm with ⟨d, hd, hdn⟩
    rcases List.mem_cons.mp hd with rfl | hdrest
    · exact ⟨.building (.linked i), by rw [← hdn]; exact List.mem_cons_self _ _⟩
    · rcases ih (List.mem_map.mpr ⟨d, hdrest, hdn⟩) (i + 1) with ⟨val, hval⟩
      exact ⟨val, List.mem_cons_of_mem _ hval⟩

/-- A named constant slot rejects every write with `ConstantMutation`
(leaving the store untouched — the failing `set_val` returns before any
mutation). -/
theorem namedConst_setVal {vars : Variables} {nm : Txt}
    (h : NamedConst vars nm) :
    ∃ hh, vars.getHandle nm = some hh ∧
      ∀ v, vars.setVal hh v = .err (.constantMutation nm) := by
  obtain ⟨hh, hlook, hslot⟩ := h
  refine ⟨hh, hlook, ?_⟩
  intro v
  unfold Variables.setVal
  split
  · rename_i heq
    unfold Variables.slot at hslot
    rw [heq] at hslot
    exact absurd hslot (by simp)
  · rename_i s heq
    unfold Variables.slot at hslot
    rw [heq] at hslot
    simp only [Option.map_some', Option.some.injEq, Prod.mk.injEq] at hslot
    simp [hslot.1, hslot.2]

/-- C6: in every successfully constructed VM, each builtin installed as a
constant (every builtin except `@counter` and `@unit`, including the
property constants) and each device-named slot answers every write —
`set`, `op`, `read`, `getlink`, `sensor` and `Processor::write` all go
through `Variables.setVal` — with `ConstantMutation`, and the slot's value
is unchanged (the failing `set_val` performs no mutation). -/
theorem C6_constant_immutability (ops : MathOps) (code : Txt) (limit : Nat)
    (binits : List BuildingState) (vm : VMState) (nm : Txt)
    (hvm : vmNew ops code limit binits = .ok vm)
    (hnm : (∃ val, (nm, val, true) ∈
              builtinTable ops binits.length ++ propertyEntries) ∨
           nm ∈ binits.map BuildingState.name) :
    ∃ hh, vm.vars.getHandle nm = some hh ∧
      (∀ v, vm.vars.setVal hh v = .err (.constantMutation nm)) ∧
      (∀ (σ : VMState) (arg : ValueArg) (v : Value), σ.vars = vm.vars →
        evalArg arg vm.vars = .ok v →
        execute ops (.set hh arg) σ = .err (.constantMutation nm)) := by
  unfold vmNew at hvm
  split at hvm
  · cases hvm
  · rename_i vars0 hins
    have hb : NamedConst vars0 nm := by
      rcases hnm with ⟨val, hmem⟩ | hdev
      · exact namedConst_insertAll_mem hins (List.mem_append_left _ hmem)
      · obtain ⟨val, hval⟩ := deviceEntriesAux_mem hdev 0
        exact namedConst_insertAll_mem hins (List.mem_append_right _ hval)
    split at hvm
    · cases hvm
    · cases hvm
    · rename_i insts ps hpa
      have hps : NamedConst ps.vars nm := namedConst_parseAll hpa hb
      split at hvm
      · cases hvm
      · split at hvm
        · cases hvm
        · split at hvm
          · cases hvm
          · rename_i pcH hgc
            split at hvm
            · cases hvm
            · rename_i thisH hgt
              cases hvm
              have hfin : NamedConst
                  (ps.vars.forceSetVal thisH (.building .this)) nm :=
                namedConst_forceSet thisH (.building .this) hps
              obtain ⟨hh, hlook, hset⟩ := namedConst_setVal hfin
              refine ⟨hh, hlook, hset, ?_⟩
              intro σ arg v hσ hev
              simp only at hev
              simp [execute, hσ, hev, bind, Res.bind, hset v]

/-- C6 witness: in a concrete VM, writing the builtin `@pi` fails with
`ConstantMutation`. -/
theorem C6_constant_immutability_witness :
    ∃ hh, (vmOf "print 1" [⟨"m1".toList, .message []⟩]).vars.getHandle
        "@pi".toList = some hh ∧
      (∀ v, (vmOf "print 1" [⟨"m1".toList, .message []⟩]).vars.setVal hh v =
        .err (.constantMutation "@pi".toList)) ∧
      (∀ (σ : VMState) (arg : ValueArg) (v : Value),
        σ.vars = (vmOf "print 1" [⟨"m1".toList, .message []⟩]).vars →
        evalArg arg (vmOf "print 1" [⟨"m1".toList, .message []⟩]).vars = .ok v →
        execute dummyOps (.set hh arg) σ =
          .err (.constantMutation "@pi".toList)) :=
  C6_constant_immutability dummyOps "print 1".toList 1000
    [⟨"m1".toList, .message []⟩]
    (vmOf "print 1" [⟨"m1".toList, .message []⟩]) "@pi".toList
    (by decide) (Or.inl ⟨.num dummyOps.pi, by decide⟩)

/-! ## Print-buffer accounting (for C5) -/

theorem asBuilding_ok {strs : List StrCell} {bs : List BuildingState}
    {v : Value} {r : BRef} (h : v.asBuilding strs bs = .ok r) :
    v = .building r := by
  cases v <;> simp [Value.asBuilding] at h
  rw [h]

theorem processorWrite_buffer {σ : VMState} {idx val : Value} {σ' : VMState}
    (h : processorWrite σ idx val = .ok σ') : σ'.buffer = σ.buffer := by
  unfold processorWrite at h
  simp only [bind, Res.bind, Res.pure_def] at h
  repeat' split at h
  all_goals cases h
  all_goals rfl

theorem buildingWrite_buffer {σ : VMState} {r : BRef} {idx val : Value}
    {σ' : VMState} (h : buildingWrite σ r idx val = .ok σ') :
    σ'.buffer = σ.buffer := by
  unfold buildingWrite at h
  repeat' split at h
  all_goals
    first
    | exact processorWrite_buffer h
    | (simp only [bind, Res.bind, Res.pure_def] at h
       repeat' split at h
       all_goals cases h
       all_goals rfl)
    | cases h

theorem valueSense_buffer {σ : VMState} {v : Value} {p : Txt}
    {pr : Value × VMState} (h : valueSense σ v p = .ok pr) :
    pr.2.buffer = σ.buffer := by
  unfold valueSense at h
  repeat' split at h
  all_goals try simp only [bind, Res.bind, Res.pure_def] at h
  all_goals repeat' split at h
  all_goals cases h
  all_goals rfl

/-- A successful `print_flush` dispatch: the target was a linked message
building and its text is replaced by the delivered contents. -/
theorem buildingPrintFlush_ok {σ : VMState} {r : BRef} {contents : Txt}
    {σ' : VMState} (h : buildingPrintFlush σ r contents = .ok σ') :
    ∃ i b told, r = .linked i ∧ σ.buildings[i]? = some b ∧
      b.kind = .message told ∧
      σ' = { σ with buildings :=
        σ.buildings.set i { b with kind := .message contents } } := by
  unfold buildingPrintFlush at h
  repeat' split at h
  all_goals cases h
  exact ⟨_, _, _, rfl, by assumption, by assumption, rfl⟩

/-- A successful `printflush` cycle step: the argument evaluated to a linked
message building; the buffer is taken (emptied) and delivered as the
device's new text; the store is untouched. -/
theorem execute_flush_facts {ops : MathOps} {arg : ValueArg} {σA σ' : VMState}
    {halt : Bool} (h : execute ops (.printFlush arg) σA = .ok (σ', halt)) :
    ∃ i b told, evalArg arg σA.vars = .ok (.building (.linked i)) ∧
      σA.buildings[i]? = some b ∧ b.kind = .message told ∧
      σ' = { σA with buffer := [], buildings :=
        σA.buildings.set i { b with kind := .message σA.buffer } } ∧
      halt = false := by
  simp only [execute, bind, Res.bind, Res.pure_def] at h
  repeat' split at h
  all_goals cases h
  obtain ⟨i, b, told, hrb, hb, hk, hs⟩ := buildingPrintFlush_ok (by assumption)
  subst hrb
  have hxv := asBuilding_ok (by assumption)
  subst hxv
  exact ⟨i, b, told, by assumption, hb, hk, hs, rfl⟩

/-- Every successful non-`printflush` instruction only ever APPENDS to the
print buffer. -/
theorem execute_buffer_nonflush {ops : MathOps} {ins : Instruction}
    {σA σ' : VMState} {halt : Bool}
    (h : execute ops ins σA = .ok (σ', halt))
    (hnf : ∀ arg, ins ≠ .printFlush arg) :
    ∃ s, σ'.buffer = σA.buffer ++ s := by
  cases ins
  case printFlush arg => exact absurd rfl (hnf arg)
  all_goals
    simp only [execute, bind, Res.bind, Res.pure_def] at h
  all_goals repeat' split at h
  all_goals cases h
  all_goals
    first
    | exact ⟨_, rfl⟩
    | (refine ⟨[], ?_⟩
       rw [List.append_nil]
       try first
         | rfl
         | solve_by_elim [buildingWrite_buffer, valueSense_buffer])

/-- A successful cycle dispatched exactly the instruction `resolvedIns`
recomputes, and the post-state relates to the pre-state's buffer as the step
event records: a non-flush cycle appended a suffix, a flush cycle delivered
the pre-cycle buffer and left the buffer empty. -/
theorem cycle_buffer_event {ops : MathOps} {σ σ' : VMState} {wrap halt : Bool}
    (h : cycle ops σ = .ok (σ', wrap, halt)) :
    (∃ s, σ'.buffer = σ.buffer ++ s ∧ stepEvent σ σ' = .app s) ∨
    (∃ d, stepEvent σ σ' = .flush d σ.buffer ∧ σ'.buffer = []) := by
  unfold cycle at h
  split at h
  · cases h
  · cases h
  rename_i pcv hget
  split at h
  · cases h
  · cases h
  rename_i pc hpc
  split at h
  · cases h
  rename_i hneg
  split at h
  rename_i pcu wrapv hpair
  split at h
  · cases h
  · cases h
  rename_i vars1 hset
  split at h
  · cases h
  rename_i ins hins
  split at h
  · cases h
  · cases h
  rename_i σ2 halt2 hexec
  cases h
  have hbranch : σ.code[if (σ.code.length : Int) ≤ pc then 0 else pc.toNat]?
      = some ins := by
    by_cases hc : (σ.code.length : Int) ≤ pc
    · rw [if_pos hc] at hpair
      cases hpair
      rw [if_pos hc]
      exact hins
    · rw [if_neg hc] at hpair
      cases hpair
      rw [if_neg hc]
      exact hins
  have hres : resolvedIns σ = some ins := by
    rw [resolvedIns, hget]
    simp only [Res.toOption, Option.bind_eq_bind, Option.some_bind]
    rw [hpc]
    simp only [Res.toOption, Option.some_bind]
    rw [if_neg hneg]
    exact hbranch
  cases ins with
  | printFlush arg =>
    obtain ⟨i, b, told, hev, hb, hk, hσ2, hhalt⟩ := execute_flush_facts hexec
    right
    have hlt : i < σ.buildings.length := (List.getElem?_eq_some.mp hb).1
    refine ⟨brefName σ'.buildings (.linked i), ?_, ?_⟩
    · have hev2 : evalArg arg σ'.vars = .ok (.building (.linked i)) := by
        rw [hσ2]
        exact hev
      have htext : flushTextOf σ' (.linked i) = σ.buffer := by
        rw [hσ2]
        show msgTextOf (σ.buildings.set i
          { b with kind := .message σ.buffer })[i]? = σ.buffer
        rw [List.getElem?_set_self]
        · rfl
        · exact hlt
      rw [stepEvent, hres]
      simp only [stepEventAux]
      rw [hev2]
      simp only [flushEventAux]
      rw [htext]
    · rw [hσ2]
  | _ =>
    left
    obtain ⟨s, hs⟩ := execute_buffer_nonflush hexec (fun a ha => by cases ha)
    refine ⟨s, hs, ?_⟩
    rw [stepEvent, hres]
    simp only [stepEventAux, hs, List.drop_left]

/-- Trace invariant: starting from any state, every flush event in the run's
trace delivers exactly the text accumulated (in the buffer plus the appends)
since the previous flush, and when the run stops normally the final buffer is
the accumulation predicted from the trace. -/
theorem runTrace_traceOK (ops : MathOps) (n : Nat) (eow : Bool) (σ : VMState)
    (res : PosRes (VmFinishReason × VMState)) (evs : List PEvent)
    (h : runTrace ops n eow σ = (res, evs)) :
    traceOKFrom σ.buffer evs = true ∧
    ∀ r σ', res = .ok (r, σ') → σ'.buffer = bufAcc σ.buffer evs := by
  induction n generalizing σ res evs with
  | zero =>
    cases h
    refine ⟨rfl, ?_⟩
    intro r σ' hres
    cases hres
    rfl
  | succ n ih =>
    unfold runTrace at h
    split at h
    · cases h
      exact ⟨rfl, fun r σ' hres => by cases hres⟩
    · cases h
      exact ⟨rfl, fun r σ' hres => by cases hres⟩
    rename_i σ2 wrap2 halt2 hcyc
    split at h
    · cases h
      rcases cycle_buffer_event hcyc with ⟨s, hs, hev⟩ | ⟨d, hev, hs⟩
      · refine ⟨?_, ?_⟩
        · rw [hev]
          simp [traceOKFrom]
        · intro r σ' hres
          cases hres
          rw [hev]
          simp only [bufAcc]
          exact hs
      · refine ⟨?_, ?_⟩
        · rw [hev]
          simp [traceOKFrom]
        · intro r σ' hres
          cases hres
          rw [hev]
          simp only [bufAcc]
          exact hs
    split at h
    · cases h
      rcases cycle_buffer_event hcyc with ⟨s, hs, hev⟩ | ⟨d, hev, hs⟩
      · refine ⟨?_, ?_⟩
        · rw [hev]
          simp [traceOKFrom]
        · intro r σ' hres
          cases hres
          rw [hev]
          simp only [bufAcc]
          exact hs
      · refine ⟨?_, ?_⟩
        · rw [hev]
          simp [traceOKFrom]
        · intro r σ' hres
          cases hres
          rw [hev]
          simp only [bufAcc]
          exact hs
    split at h
    rename_i res2 evs2 hrt
    cases h
    obtain ⟨ih1, ih2⟩ := ih σ2 res evs2 hrt
    rcases cycle_buffer_event hcyc with ⟨s, hs, hev⟩ | ⟨d, hev, hs⟩
    · refine ⟨?_, ?_⟩
      · rw [hev]
        simp only [traceOKFrom]
        rw [← hs]
        exact ih1
      · intro r σ' hres
        rw [hev]
        simp only [bufAcc]
        rw [← hs]
        exact ih2 r σ' hres
    · refine ⟨?_, ?_⟩
      · rw [hev]
        simp only [traceOKFrom]
        rw [← hs]
        simp [ih1]
      · intro r σ' hres
        rw [hev]
        simp only [bufAcc]
        rw [← hs]
        exact ih2 r σ' hres

/-- A freshly constructed VM starts with an empty print buffer. -/
theorem vmNew_buffer {ops : MathOps} {code : Txt} {lim : Nat}
    {binits : List BuildingState} {vm : VMState}
    (h : vmNew ops code lim binits = .ok vm) : vm.buffer = [] := by
  unfold vmNew at h
  repeat' split at h
  all_goals cases h
  rfl

/-- C5: print-buffer round trip.  In any run of a freshly constructed VM,
every `printflush` delivers to its device exactly the concatenation, in
execution order, of everything the print instructions appended since the
previous flush (or since the start of the run) — `traceOKFrom [] evs` — and
the buffer is empty immediately after each flush, so a normally finishing
run ends with its buffer holding exactly the appends after the last flush
(`bufAcc [] evs`). -/
theorem C5_print_roundtrip (ops : MathOps) (code : Txt) (lim : Nat)
    (binits : List BuildingState) (vm : VMState)
    (hvm : vmNew ops code lim binits = .ok vm)
    (n : Nat) (eow : Bool) (res : PosRes (VmFinishReason × VMState))
    (evs : List PEvent) (hrun : runTrace ops n eow vm = (res, evs)) :
    traceOKFrom [] evs = true ∧
    ∀ r σ', res = .ok (r, σ') → σ'.buffer = bufAcc [] evs := by
  have hb0 : vm.buffer = [] := vmNew_buffer hvm
  have hmain := runTrace_traceOK ops n eow vm res evs hrun
  rw [hb0] at hmain
  exact hmain

theorem C5_print_roundtrip_witness :
    traceOKFrom [] (runTrace dummyOps 5 true c5vm).2 = true ∧
    ∀ r σ', (runTrace dummyOps 5 true c5vm).1 = .ok (r, σ') →
      σ'.buffer = bufAcc [] (runTrace dummyOps 5 true c5vm).2 :=
  C5_print_roundtrip dummyOps
    "set x 1\nprint x\nprint \"abc\"\nprintflush m1".toList 1000
    [⟨"m1".toList, .message []⟩] c5vm (by decide) 5 true
    (runTrace dummyOps 5 true c5vm).1 (runTrace dummyOps 5 true c5vm).2 rfl

/-- Extending the slice `ln[start..i]` by the character at `i`. -/
theorem take_drop_snoc (ln : Txt) {i start : Nat} {c : Char}
    (hsi : start ≤ i) (hc : ln[i]? = some c) :
    (ln.drop start).take (i + 1 - start)
      = (ln.drop start).take (i - start) ++ [c] := by
  have h1 : i + 1 - start = (i - start) + 1 := by omega
  rw [h1, List.take_succ]
  congr 1
  rw [List.getElem?_drop]
  have h2 : start + (i - start) = i := by omega
  rw [h2, hc]
  rfl

/-- The `split_line` loop in accumulator form: the slice bookkeeping through
`start` is equivalent to carrying the pending token directly. -/
theorem splitLineAux_acc (ln : Txt) (rest : Txt) : ∀ i start ns qs,
    rest = ln.drop i → start ≤ i → i ≤ ln.length →
    splitLineAux ln rest i start ns qs
      = splitAcc ((ln.drop start).take (i - start)) ns qs rest := by
  induction rest with
  | nil =>
    intro i start ns qs hrest hsi hil
    have hi : i = ln.length := by
      have := List.drop_eq_nil_iff.mp hrest.symm
      omega
    subst hi
    have hpend : (ln.drop start).take (ln.length - start) = ln.drop start := by
      apply List.take_of_length_le
      simp
    simp only [splitLineAux, splitAcc, hpend]
    by_cases hs : start = ln.length
    · rw [if_pos hs, if_pos (by rw [hs]; exact List.drop_length ln)]
    · rw [if_neg hs]
      have hne : ln.drop start ≠ [] := by
        intro hnil
        have := List.drop_eq_nil_iff.mp hnil
        omega
      rw [if_neg hne]
  | cons c rest' ih =>
    intro i start ns qs hrest hsi hil
    have hc : ln[i]? = some c := by
      have h0 : (ln.drop i)[0]? = some c := by rw [← hrest]; simp
      rw [List.getElem?_drop] at h0
      simpa using h0
    have hilt : i + 1 ≤ ln.length := by
      have := (List.getElem?_eq_some.mp hc).1
      omega
    have hrest' : rest' = ln.drop (i + 1) := by
      have h2 : (ln.drop i).tail = rest' := by rw [← hrest]; rfl
      rw [← h2, List.tail_drop]
    simp only [splitLineAux, splitAcc]
    by_cases hsp : c = ' ' ∧ qs = false
    · rw [if_pos hsp, if_pos hsp]
      rw [ih (i + 1) start true qs hrest' (by omega) hilt]
      rw [take_drop_snoc ln hsi hc]
    · rw [if_neg hsp, if_neg hsp]
      rw [ih (i + 1) (if ns then i else start) false
        (if c = '"' then !qs else qs) hrest' (by split <;> omega) hilt]
      congr 1
      by_cases hns : ns = true
      · rw [if_pos hns, if_pos hns]
        have h1 : i + 1 - i = 1 := by omega
        rw [h1, ← hrest]
        rfl
      · rw [if_neg hns, if_neg hns]
        rw [take_drop_snoc ln hsi hc]

/-- On good lines the stale-`start` bookkeeping is harmless: the loop in
accumulator form computes the spec's field splitting.  The second conjunct
covers the state right after an unquoted space (`ns` set), which a good line
always follows with a non-space: the stale pending token is dropped there. -/
theorem splitAcc_spec_strong : ∀ n (rest : Txt), rest.length ≤ n →
    (∀ pending qs, goodLine qs rest = true →
      splitAcc pending false qs rest = specSplitAux pending qs rest) ∧
    (∀ pendA qs, goodLine qs rest = true →
      (∃ c r, rest = c :: r ∧ ¬(c = ' ' ∧ qs = false)) →
      splitAcc pendA true qs rest = specSplitAux [] qs rest) := by
  intro n
  induction n with
  | zero =>
    intro rest hlen
    have hnil : rest = [] := List.length_eq_zero.mp (Nat.le_zero.mp hlen)
    subst hnil
    refine ⟨fun pending qs _ => rfl, fun pendA qs _ hex => ?_⟩
    obtain ⟨c, r, hcr, -⟩ := hex
    cases hcr
  | succ n ihn =>
    intro rest hlen
    constructor
    · intro pending qs h
      cases rest with
      | nil => rfl
      | cons c rest' =>
        by_cases hsp : c = ' ' ∧ qs = false
        · cases rest' with
          | nil =>
            exfalso
            simp only [goodLine, hsp.1, hsp.2] at h
            simp at h
          | cons c' rest'' =>
            simp only [goodLine] at h
            rw [if_pos hsp] at h
            rw [Bool.and_eq_true] at h
            obtain ⟨h1, h2⟩ := h
            rw [decide_eq_true_eq] at h1
            simp only [splitAcc, specSplitAux]
            rw [if_pos hsp, if_pos hsp]
            congr 1
            exact (ihn (c' :: rest'') (by simp at hlen ⊢; omega)).2
              (pending ++ [c]) qs h2 ⟨c', rest'', rfl, fun hand => h1 hand.1⟩
        · have hg : goodLine (if c = '"' then !qs else qs) rest' = true := by
            cases rest' with
            | nil => rfl
            | cons c2 r2 =>
              simp only [goodLine] at h
              rw [if_neg hsp] at h
              exact h
          simp only [splitAcc, specSplitAux]
          rw [if_neg hsp, if_neg hsp]
          simp only [Bool.false_eq_true, if_false]
          exact (ihn rest' (by simp at hlen; omega)).1 (pending ++ [c])
            (if c = '"' then !qs else qs) hg
    · intro pendA qs h hex
      obtain ⟨c, r, hcr, hcn⟩ := hex
      subst hcr
      have hg : goodLine (if c = '"' then !qs else qs) r = true := by
        cases r with
        | nil => rfl
        | cons c2 r2 =>
          simp only [goodLine] at h
          rw [if_neg hcn] at h
          exact h
      simp only [splitAcc, specSplitAux]
      rw [if_neg hcn, if_neg hcn]
      simp only [if_true, List.nil_append]
      exact (ihn r (by simp at hlen; omega)).1 [c] (if c = '"' then !qs else qs) hg

/-- On quote-free input the spec splitting never produces a token holding a
space (the pending token is flushed at each space and never re-read). -/
theorem specSplitAux_no_space : ∀ (rest : Txt) (pending : Txt),
    '"' ∉ rest → ' ' ∉ pending →
    ∀ t ∈ specSplitAux pending false rest, ' ' ∉ t := by
  intro rest
  induction rest with
  | nil =>
    intro pending _ hp t ht
    simp only [specSplitAux] at ht
    split at ht
    · cases ht
    · rw [List.mem_singleton] at ht
      subst ht
      exact hp
  | cons c rest' ih =>
    intro pending hq hp t ht
    have hq' : '"' ∉ rest' := fun hin => hq (List.mem_cons_of_mem c hin)
    have hcq : c ≠ '"' := fun he => hq (he ▸ List.mem_cons_self c rest')
    simp only [specSplitAux, if_neg hcq] at ht
    by_cases hcs : c = ' '
    · rw [if_pos ⟨hcs, trivial⟩] at ht
      rw [List.mem_cons] at ht
      rcases ht with ht | ht
      · subst ht
        exact hp
      · exact ih [] hq' (List.not_mem_nil ' ') t ht
    · rw [if_neg (fun hand => hcs hand.1)] at ht
      have hp' : ' ' ∉ pending ++ [c] := by
        intro hin
        rcases List.mem_append.mp hin with hin | hin
        · exact hp hin
        · rw [List.mem_singleton] at hin
          exact hcs hin.symm
      exact ih (pending ++ [c]) hq' hp' t ht

/-- C8 (amended): on every line in which each unquoted space is immediately
followed by a non-space (no unquoted double space, no trailing unquoted
space), `split_line` returns exactly the fields separated by ASCII spaces
with quotes retained (the spec's splitting); on such a line without any
double-quote no returned token contains a space, and empty input yields an
empty sequence. -/
theorem C8_split_amended (ln : Txt) (h : goodLine false ln = true) :
    splitLine ln = specSplit ln ∧
    ('"' ∉ ln → ∀ t ∈ splitLine ln, ' ' ∉ t) ∧
    splitLine [] = [] := by
  have heq : splitLine ln = specSplit ln := by
    rw [splitLine, specSplit]
    rw [splitLineAux_acc ln ln 0 0 false false (by simp) (Nat.le_refl 0)
      (Nat.zero_le _)]
    simp only [Nat.sub_self, List.take_zero]
    exact (splitAcc_spec_strong ln.length ln (Nat.le_refl _)).1 [] false h
  refine ⟨heq, ?_, rfl⟩
  intro hq t ht
  rw [heq] at ht
  exact specSplitAux_no_space ln [] hq (List.not_mem_nil ' ') t ht

theorem C8_split_amended_witness :
    splitLine "ab cd".toList = specSplit "ab cd".toList ∧
    ('"' ∉ "ab cd".toList → ∀ t ∈ splitLine "ab cd".toList, ' ' ∉ t) ∧
    splitLine [] = [] :=
  C8_split_amended "ab cd".toList (by decide)
